import Mathlib

/-!
# MoSync connection-operation engine (`runtimes/cpp/base/networking.h`)

A shallow embedding of the glue classes of `networking.h`: the connection
records (`MAConn`), the registry `gConnections`, the handle counter
`gConnNextHandle`, the completion publisher `ConnOp::handleResult`, the nine
operation classes with their `run()` methods, and `MAConn::close`.

Modelling conventions.

* C++ `int` values (handles, opcodes, result codes, the pending mask) are
  mathematical integers.  The only arithmetic in the file is the post-increment
  of `gConnNextHandle`; signed overflow there is undefined behaviour in C++
  and is not modelled.  The bit operations `&` and `~` are two's complement
  operations, which on integers of any width agree with `cAnd` and `cNot`.
* Records live in a heap (`World.heap`), addressed by their index; a C++
  reference or pointer to a record is such an index.  A method run on an
  address that holds no record has no behaviour (`none`).
* Every method appends the actions it performs, in program order, to
  `World.trace`.  The trace is the observable behaviour of the calling thread:
  mutex calls, transport calls, writes to shared data, and calls of the
  functions that the header only declares.
* Values produced outside this header (what a transport call returns, whether
  a stream exposes a direct pointer, whether staging succeeds) are arguments of
  the `run` functions.
* Each method is the sequential behaviour of the thread that executes it.  The
  one place where the code waits for other threads, the loop of
  `MAConn::close`, takes what those threads did as arguments (the operations
  they executed, `others`, and the pending mask the closing thread reads,
  `obs`) and is bounded by a fuel argument.
* The logging macros `LOGST` and `LOG` only write to the debug log and are left
  out.
-/

namespace Networking

/-! ## Integers as bit patterns -/

/-- Bitwise complement `~x` of a two's complement integer. -/
def cNot : Int → Int
  | Int.ofNat n => Int.negSucc n
  | Int.negSucc n => Int.ofNat n

/-- Bitwise conjunction `x & y` of two's complement integers.  For a
non-negative `m` and a negative `-(n+1)` the result is `m & ~n`, computed as
`m ^ (m & n)`. -/
def cAnd : Int → Int → Int
  | Int.ofNat m, Int.ofNat n => Int.ofNat (m &&& n)
  | Int.ofNat m, Int.negSucc n => Int.ofNat (m ^^^ (m &&& n))
  | Int.negSucc m, Int.ofNat n => Int.ofNat (n ^^^ (n &&& m))
  | Int.negSucc m, Int.negSucc n => Int.negSucc (m ||| n)

/-! ## Constants of the API header -/

/-- The constants that `networking.h` takes from the MoSync API header, which
is not among the sources.  Every definition below is parametric in them. -/
structure ConnConsts where
  EVENT_TYPE_CONN : Int
  CONNOP_READ : Int
  CONNOP_WRITE : Int
  CONNOP_CONNECT : Int
  CONNOP_FINISH : Int
  CONNOP_ACCEPT : Int
  CONNERR_GENERIC : Int
  CONNERR_CANCELED : Int
  deriving DecidableEq, Repr

/-- One assignment of values to these constants, as in the MoSync API header:
the opcodes are positive, the error codes negative and distinct.  It is used
for the concrete scenarios only. -/
def maapi : ConnConsts where
  EVENT_TYPE_CONN := 4
  CONNOP_READ := 1
  CONNOP_WRITE := 2
  CONNOP_CONNECT := 7
  CONNOP_FINISH := 11
  CONNOP_ACCEPT := 16
  CONNERR_GENERIC := -2
  CONNERR_CANCELED := -13

/-! ## Data model -/

/-- Source: `enum MACType`. -/
inductive MACType where
  | eStreamConn
  | eServerConn
  deriving DecidableEq, Repr

/-- Source: `struct MAConn`, together with the one pointer that the derived
structs `MAStreamConn` (`conn`) and `MAServerConn` (`serv`) add, here `res`.
Transport objects are named by natural numbers; `clo = none` is `NULL`. -/
structure MAConn where
  handle : Int
  type : MACType
  clo : Option Nat
  state : Int
  cancel : Bool
  res : Nat
  deriving DecidableEq, Repr

/-- Source: constructor `MAStreamConn(h, c)`, which runs
`MAConn(h, eStreamConn, c)` (`state(0)`, `cancel(false)`) and sets `conn(c)`. -/
def MAStreamConn.mk (h : Int) (c : Nat) : MAConn :=
  { handle := h, type := MACType.eStreamConn, clo := some c, state := 0,
    cancel := false, res := c }

/-- Source: constructor `MAServerConn(h, s)`. -/
def MAServerConn.mk (h : Int) (s : Nat) : MAConn :=
  { handle := h, type := MACType.eServerConn, clo := some s, state := 0,
    cancel := false, res := s }

/-- The connection part of an `MAEvent`, as filled in by `handleResult`. -/
structure MAEvent where
  type : Int
  handle : Int
  opType : Int
  result : Int
  deriving DecidableEq, Repr

/-- The blocking calls made on a transport object. -/
inductive Call where
  | connect
  | read (size : Int)
  | readFrom (size : Int)
  | write (size : Int)
  | writeTo (size : Int)
  | finish
  | accept
  deriving DecidableEq, Repr

/-- One action of the executing thread. -/
inductive Act where
  /-- `gConnMutex.lock()` -/
  | lock
  /-- `gConnMutex.unlock()` -/
  | unlock
  /-- A blocking call `c` on transport object `res` that returned `ret`. -/
  | transport (res : Nat) (c : Call) (ret : Int)
  /-- `src.read(temp(), size)` and whether it succeeded. -/
  | streamRead (size : Int) (ok : Bool)
  /-- `DEBUG_ASSERT(cond)` with the value of its condition. -/
  | debugAssert (cond : Bool)
  /-- A write of `v` to the `state` field of the record at `mac`. -/
  | writeState (mac : Nat) (v : Int)
  /-- A write of `v` to the `cancel` field of the record at `mac`. -/
  | writeCancel (mac : Nat) (v : Bool)
  /-- The write `clo = NULL` on the record at `mac`. -/
  | writeClo (mac : Nat)
  /-- `clo->close()` on transport object `c`. -/
  | closableClose (c : Nat)
  /-- `gConnections.insert(ConnPair(h, p))`; `inserted` is what the call
  reports: whether a new entry was made. -/
  | registryInsert (h : Int) (p : Nat) (inserted : Bool)
  /-- `ConnPushEvent(ep)` -/
  | pushEvent (ep : MAEvent)
  /-- `DefluxBinPushEvent(handle, stream)` -/
  | defluxBinPush (handle : Int)
  /-- `MAProcessEvents()` -/
  | processEvents
  /-- `ConnWaitEvent()` -/
  | waitEvent
  deriving DecidableEq, Repr

/-- The shared state: the heap of records, the registry `gConnections` (a
`hash_map<MAHandle, MAConn*>`, kept as an association list), the counter
`gConnNextHandle`, and the trace of the actions performed so far. -/
structure World where
  heap : List MAConn
  gConnections : List (Int × Nat)
  gConnNextHandle : Int
  trace : List Act
  deriving DecidableEq, Repr

/-- Append one action to the trace. -/
def World.log (w : World) (a : Act) : World :=
  { w with trace := w.trace ++ [a] }

/-- Apply `f` to the record at address `mac`; the heap is left alone when the
address holds no record. -/
def World.update (w : World) (mac : Nat) (f : MAConn → MAConn) : World :=
  match w.heap[mac]? with
  | none => w
  | some m => { w with heap := w.heap.set mac (f m) }

/-- The write `mac.state = v`. -/
def World.setState (w : World) (mac : Nat) (v : Int) : World :=
  (w.update mac (fun m => { m with state := v })).log (Act.writeState mac v)

/-- The write `mac.cancel = v`. -/
def World.setCancel (w : World) (mac : Nat) (v : Bool) : World :=
  (w.update mac (fun m => { m with cancel := v })).log (Act.writeCancel mac v)

/-- The write `mac.clo = NULL`. -/
def World.clearClo (w : World) (mac : Nat) : World :=
  (w.update mac (fun m => { m with clo := none })).log (Act.writeClo mac)

/-- Allocation `new MAStreamConn(...)`: the record is placed at the first free
address, which is returned. -/
def World.alloc (w : World) (m : MAConn) : Nat × World :=
  (w.heap.length, { w with heap := w.heap ++ [m] })

/-- Source: `gConnections.find(h)`; the first entry under key `h`. -/
def World.find (w : World) (h : Int) : Option Nat :=
  w.gConnections.lookup h

/-- The keys of the registry. -/
def World.keys (w : World) : List Int :=
  w.gConnections.map Prod.fst

/-- Source: `gConnections.insert(ConnPair(h, p))`.  As for every standard map,
`insert` adds the pair only when no entry with key `h` exists and leaves the
map unchanged otherwise. -/
def World.registryInsert (w : World) (h : Int) (p : Nat) : World :=
  match w.find h with
  | some _ => w.log (Act.registryInsert h p false)
  | none =>
    { w with gConnections := w.gConnections ++ [(h, p)],
             trace := w.trace ++ [Act.registryInsert h p true] }

/-- Source: `gConnMutex.lock()`. -/
def gConnMutex.lock (w : World) : World := w.log Act.lock

/-- Source: `gConnMutex.unlock()`. -/
def gConnMutex.unlock (w : World) : World := w.log Act.unlock

/-- Modelled from the spec: `ConnPushEvent` is only declared in the header.
It pushes the completion event to the host's event queue; the queue is the
sequence of `pushEvent` actions of the trace. -/
def ConnPushEvent (ep : MAEvent) (w : World) : World := w.log (Act.pushEvent ep)

/-- Modelled from the spec: `DefluxBinPushEvent` is only declared in the
header.  It notifies the owner of the buffer object `handle` that its backing
storage is stable; the stream argument is not inspected. -/
def DefluxBinPushEvent (handle : Int) (w : World) : World :=
  w.log (Act.defluxBinPush handle)

/-- Modelled from the spec: `MAProcessEvents` is only declared in the header.
It drains the events currently queued; it touches no record and not the
registry. -/
def MAProcessEvents (w : World) : World := w.log Act.processEvents

/-- Modelled from the spec: `ConnWaitEvent` is only declared in the header.
It blocks until there are events to be processed. -/
def ConnWaitEvent (w : World) : World := w.log Act.waitEvent

/-! ## ConnOp -/

/-- Source: `ConnOp::handleResult(opcode, result, lock)`, lines 130-154.
`DEBUG_ASSERT` is defined outside this header; it checks its condition and
changes no data, so it is recorded in the trace with the value of the
condition and execution goes on as it does when the check passes or is
compiled out. -/
def ConnOp.handleResult (K : ConnConsts) (mac : Nat) (opcode result : Int)
    (lock : Bool) (w : World) : Option World :=
  let w1 := if lock then gConnMutex.lock w else w
  match w1.heap[mac]? with
  | none => none
  | some m =>
    let result1 := if result < 0 ∧ m.cancel = true then K.CONNERR_CANCELED else result
    let w2 := w1.log (Act.debugAssert (decide (cAnd m.state opcode ≠ 0)))
    let ep : MAEvent :=
      { type := K.EVENT_TYPE_CONN, handle := m.handle, opType := opcode, result := result1 }
    let w3 := w2.setState mac (cAnd m.state (cNot opcode))
    let w4 := ConnPushEvent ep w3
    some (if lock then gConnMutex.unlock w4 else w4)

/-! ## The operations -/

/-- Source: `Connect::run`; `ret` is what `masc.conn->connect()` returns. -/
def Connect.run (K : ConnConsts) (mac : Nat) (ret : Int) (w : World) : Option World :=
  match w.heap[mac]? with
  | none => none
  | some m =>
    ConnOp.handleResult K mac K.CONNOP_CONNECT ret true
      (w.log (Act.transport m.res Call.connect ret))

/-- Source: `ConnRead::run`; `ret` is what `masc.conn->read(dst, size)`
returns. -/
def ConnRead.run (K : ConnConsts) (mac : Nat) (size : Int) (ret : Int) (w : World) :
    Option World :=
  match w.heap[mac]? with
  | none => none
  | some m =>
    ConnOp.handleResult K mac K.CONNOP_READ ret true
      (w.log (Act.transport m.res (Call.read size) ret))

/-- Source: `ConnReadFrom::run`; `ret` is what
`masc.conn->readFrom(dst, size, *src)` returns. -/
def ConnReadFrom.run (K : ConnConsts) (mac : Nat) (size : Int) (ret : Int) (w : World) :
    Option World :=
  match w.heap[mac]? with
  | none => none
  | some m =>
    ConnOp.handleResult K mac K.CONNOP_READ ret true
      (w.log (Act.transport m.res (Call.readFrom size) ret))

/-- Source: `ConnWrite::run`; `ret` is what `masc.conn->write(src, size)`
returns. -/
def ConnWrite.run (K : ConnConsts) (mac : Nat) (size : Int) (ret : Int) (w : World) :
    Option World :=
  match w.heap[mac]? with
  | none => none
  | some m =>
    ConnOp.handleResult K mac K.CONNOP_WRITE ret true
      (w.log (Act.transport m.res (Call.write size) ret))

/-- Source: `ConnWriteTo::run`; `ret` is what
`masc.conn->writeTo(src, size, dst)` returns. -/
def ConnWriteTo.run (K : ConnConsts) (mac : Nat) (size : Int) (ret : Int) (w : World) :
    Option World :=
  match w.heap[mac]? with
  | none => none
  | some m =>
    ConnOp.handleResult K mac K.CONNOP_WRITE ret true
      (w.log (Act.transport m.res (Call.writeTo size) ret))

/-- Source: `ConnReadToData::run`; `handle` is the data handle of the buffer
object, `ret` is what `masc.conn->read(dst.ptr() + offset, size)` returns. -/
def ConnReadToData.run (K : ConnConsts) (mac : Nat) (handle : Int) (size : Int)
    (ret : Int) (w : World) : Option World :=
  match w.heap[mac]? with
  | none => none
  | some m =>
    let result := ret
    let w1 := w.log (Act.transport m.res (Call.read size) ret)
    let w2 := gConnMutex.lock w1
    let w3 := DefluxBinPushEvent handle w2
    (ConnOp.handleResult K mac K.CONNOP_READ result false w3).map gConnMutex.unlock

/-- Source: `ConnWriteFromData::run`, lines 252-263: the value of the local
`result` and the world after the staging and transport step.  `ptrc` is what
`src.ptrc()` returns (`none` for `NULL`), `readOk` is what
`src.read(temp(), size)` returns, `ret` is what `masc.conn->write` returns. -/
def ConnWriteFromData.stage (K : ConnConsts) (m : MAConn) (size : Int)
    (ptrc : Option Nat) (readOk : Bool) (ret : Int) (w : World) : Int × World :=
  match ptrc with
  | some _ => (ret, w.log (Act.transport m.res (Call.write size) ret))
  | none =>
    let w1 := w.log (Act.streamRead size readOk)
    if !readOk then (K.CONNERR_GENERIC, w1)
    else (ret, w1.log (Act.transport m.res (Call.write size) ret))

/-- Source: `ConnWriteFromData::run`. -/
def ConnWriteFromData.run (K : ConnConsts) (mac : Nat) (handle : Int) (size : Int)
    (ptrc : Option Nat) (readOk : Bool) (ret : Int) (w : World) : Option World :=
  match w.heap[mac]? with
  | none => none
  | some m =>
    let rw := ConnWriteFromData.stage K m size ptrc readOk ret w
    let w2 := gConnMutex.lock rw.2
    let w3 := DefluxBinPushEvent handle w2
    (ConnOp.handleResult K mac K.CONNOP_WRITE rw.1 false w3).map gConnMutex.unlock

/-- Source: `HttpFinish::run`; `http` names the `HttpConnection`, `ret` is
what `http.finish()` returns. -/
def HttpFinish.run (K : ConnConsts) (mac : Nat) (http : Nat) (ret : Int) (w : World) :
    Option World :=
  ConnOp.handleResult K mac K.CONNOP_FINISH ret true
    (w.log (Act.transport http Call.finish ret))

/-- Source: `Accept::run`; `res` is what `masc.serv->accept(conn)` returns and
`conn` the connection object it hands out. -/
def Accept.run (K : ConnConsts) (mac : Nat) (res : Int) (conn : Nat) (w : World) :
    Option World :=
  match w.heap[mac]? with
  | none => none
  | some m =>
    let w1 := w.log (Act.transport m.res Call.accept res)
    if res < 0 then
      ConnOp.handleResult K mac K.CONNOP_ACCEPT res true w1
    else
      let pw := w1.alloc (MAStreamConn.mk w1.gConnNextHandle conn)
      let w3 := pw.2.registryInsert pw.2.gConnNextHandle pw.1
      let h := w3.gConnNextHandle
      let w4 := { w3 with gConnNextHandle := h + 1 }
      ConnOp.handleResult K mac K.CONNOP_ACCEPT h true w4

/-! ## The operations as one type -/

/-- The nine classes derived from `ConnOp`, each with the record it is bound
to and the values its `run()` obtains from outside this header. -/
inductive Op where
  | Connect (mac : Nat) (ret : Int)
  | ConnRead (mac : Nat) (size ret : Int)
  | ConnReadFrom (mac : Nat) (size ret : Int)
  | ConnWrite (mac : Nat) (size ret : Int)
  | ConnWriteTo (mac : Nat) (size ret : Int)
  | ConnReadToData (mac : Nat) (handle size ret : Int)
  | ConnWriteFromData (mac : Nat) (handle size : Int) (ptrc : Option Nat) (readOk : Bool)
      (ret : Int)
  | HttpFinish (mac : Nat) (http : Nat) (ret : Int)
  | Accept (mac : Nat) (res : Int) (conn : Nat)
  deriving DecidableEq, Repr

/-- The member `mac` of an operation: the address of its record. -/
def Op.mac : Op → Nat
  | Op.Connect mac _ => mac
  | Op.ConnRead mac _ _ => mac
  | Op.ConnReadFrom mac _ _ => mac
  | Op.ConnWrite mac _ _ => mac
  | Op.ConnWriteTo mac _ _ => mac
  | Op.ConnReadToData mac _ _ _ => mac
  | Op.ConnWriteFromData mac _ _ _ _ _ => mac
  | Op.HttpFinish mac _ _ => mac
  | Op.Accept mac _ _ => mac

/-- The opcode constant that the class's `run()` passes to `handleResult`
(lines 169, 178, 190, 203, 215, 234, 268, 285, 300 and 306). -/
def Op.opcode (K : ConnConsts) : Op → Int
  | Op.Connect _ _ => K.CONNOP_CONNECT
  | Op.ConnRead _ _ _ => K.CONNOP_READ
  | Op.ConnReadFrom _ _ _ => K.CONNOP_READ
  | Op.ConnWrite _ _ _ => K.CONNOP_WRITE
  | Op.ConnWriteTo _ _ _ => K.CONNOP_WRITE
  | Op.ConnReadToData _ _ _ _ => K.CONNOP_READ
  | Op.ConnWriteFromData _ _ _ _ _ _ => K.CONNOP_WRITE
  | Op.HttpFinish _ _ _ => K.CONNOP_FINISH
  | Op.Accept _ _ _ => K.CONNOP_ACCEPT

/-- The virtual call `Runnable::run()`. -/
def Op.run (K : ConnConsts) : Op → World → Option World
  | Op.Connect mac ret => Connect.run K mac ret
  | Op.ConnRead mac size ret => ConnRead.run K mac size ret
  | Op.ConnReadFrom mac size ret => ConnReadFrom.run K mac size ret
  | Op.ConnWrite mac size ret => ConnWrite.run K mac size ret
  | Op.ConnWriteTo mac size ret => ConnWriteTo.run K mac size ret
  | Op.ConnReadToData mac handle size ret => ConnReadToData.run K mac handle size ret
  | Op.ConnWriteFromData mac handle size ptrc readOk ret =>
    ConnWriteFromData.run K mac handle size ptrc readOk ret
  | Op.HttpFinish mac http ret => HttpFinish.run K mac http ret
  | Op.Accept mac res conn => Accept.run K mac res conn

/-! ## Close -/

/-- The operations `ops` executed one after the other by the worker threads.
An operation bound to an address that holds no record cannot have been
submitted and is passed over. -/
def runOthers (K : ConnConsts) : List Op → World → World
  | [], w => w
  | op :: ops, w => runOthers K ops ((op.run K w).getD w)

/-- What the worker threads did while the closing thread was outside the lock:
they executed the operations `ops`.  These are not actions of the closing
thread, so its trace is unchanged. -/
def World.amid (K : ConnConsts) (ops : List Op) (w : World) : World :=
  { runOthers K ops w with trace := w.trace }

/-- What the closing thread reads in the pending mask of the record at `mac`
once it holds the lock: the value `v`, left there by the completions of the
other threads and by the submissions of the host.  This is not an action of
the closing thread, so the trace is unchanged. -/
def World.interfere (w : World) (mac : Nat) (v : Int) : World :=
  w.update mac (fun m => { m with state := v })

/-- Source: the `while(true)` loop of `MAConn::close`, lines 89-101.
Before the `i`-th passage takes the lock the other threads have executed the
operations `others i`, and `obs i` is the pending mask of the record that the
passage finds once it holds the lock; `fuel` bounds the number of passages, and
`none` is returned when it runs out. -/
def MAConn.closeLoop (K : ConnConsts) (others : Nat → List Op) (obs : Nat → Int)
    (mac : Nat) : Nat → Nat → World → Option World
  | 0, _, _ => none
  | fuel + 1, i, w =>
    let w1 := gConnMutex.lock (w.amid K (others i))
    let w2 := MAProcessEvents (w1.interfere mac (obs i))
    match w2.heap[mac]? with
    | none => none
    | some m =>
      if m.state = 0 then some (gConnMutex.unlock w2)
      else
        MAConn.closeLoop K others obs mac fuel (i + 1) (ConnWaitEvent (gConnMutex.unlock w2))

/-- Source: `MAConn::close`, lines 83-102.  `clo->close()` on a `NULL` `clo`
has no behaviour (`none`). -/
def MAConn.close (K : ConnConsts) (others : Nat → List Op) (obs : Nat → Int) (mac : Nat)
    (fuel : Nat) (w : World) : Option World :=
  match w.heap[mac]? with
  | none => none
  | some m =>
    let w1 := w.setCancel mac true
    match m.clo with
    | none => none
    | some c =>
      let w2 := w1.log (Act.closableClose c)
      let w3 := w2.clearClo mac
      MAConn.closeLoop K others obs mac fuel 0 w3

/-! ## Observers of the trace -/

/-- The connection events pushed by a sequence of actions, in order. -/
def eventsOf : List Act → List MAEvent
  | [] => []
  | Act.pushEvent ep :: t => ep :: eventsOf t
  | _ :: t => eventsOf t

/-- Replays a sequence of actions on the pending mask of the record at `mac`,
starting from the value `cur`, and checks at every pushed event that no bit of
the event's opcode is set in the mask at that moment. -/
def publishedClear (mac : Nat) : Int → List Act → Bool
  | _, [] => true
  | cur, Act.writeState p v :: t =>
    if p = mac then publishedClear mac v t else publishedClear mac cur t
  | cur, Act.pushEvent ep :: t => decide (cAnd cur ep.opType = 0) && publishedClear mac cur t
  | cur, _ :: t => publishedClear mac cur t

/-- Whether the first `pushEvent` of a sequence of actions comes before a
`defluxBinPush`: the event is published first and the buffer owner notified
afterwards. -/
def eventBeforeNotify : List Act → Bool
  | [] => false
  | Act.pushEvent _ :: t => t.any (fun a => match a with
      | Act.defluxBinPush _ => true
      | _ => false)
  | Act.defluxBinPush _ :: _ => false
  | _ :: t => eventBeforeNotify t

/-- Whether the first `defluxBinPush` of a sequence of actions comes before a
`pushEvent`: the buffer owner is notified first and the event published
afterwards. -/
def notifyBeforeEvent : List Act → Bool
  | [] => false
  | Act.defluxBinPush _ :: t => t.any (fun a => match a with
      | Act.pushEvent _ => true
      | _ => false)
  | Act.pushEvent _ :: _ => false
  | _ :: t => notifyBeforeEvent t

/-- Writes to the registry mapping. -/
def isRegistryWrite : Act → Bool
  | Act.registryInsert _ _ _ => true
  | _ => false

/-- The actions of `n` unsuccessful passages through the loop of
`MAConn::close`: lock, process events, unlock, wait. -/
def waitRounds : Nat → List Act
  | 0 => []
  | n + 1 => [Act.lock, Act.processEvents, Act.unlock, Act.waitEvent] ++ waitRounds n

/-- One execution of `Accept::run`: the listener it is bound to and what the
transport accept returns. -/
structure AcceptCall where
  mac : Nat
  res : Int
  conn : Nat
  deriving DecidableEq, Repr

/-- A sequence of executions of `Accept::run`, one after the other. -/
def acceptSeq (K : ConnConsts) : List AcceptCall → World → Option World
  | [], w => some w
  | c :: cs, w =>
    match Accept.run K c.mac c.res c.conn w with
    | none => none
    | some w1 => acceptSeq K cs w1

/-- The handles that a sequence of actions hands to `gConnections.insert`,
in order: the handles issued by the successful accepts. -/
def issuedHandles : List Act → List Int
  | [] => []
  | Act.registryInsert h _ _ :: t => h :: issuedHandles t
  | _ :: t => issuedHandles t

/-- The results of the events that report a successful accept: for every
`registryInsert`, the result of the next pushed event. -/
def acceptReports : Bool → List Act → List Int
  | _, [] => []
  | _, Act.registryInsert _ _ _ :: t => acceptReports true t
  | true, Act.pushEvent ep :: t => ep.result :: acceptReports false t
  | b, _ :: t => acceptReports b t

/-- The handles carried by the records that the registry points to, in the
order of the entries (`none` for a dangling entry). -/
def World.registeredHandles (w : World) : List (Option Int) :=
  w.gConnections.map (fun e => (w.heap[e.2]?).map MAConn.handle)

/-- Every entry of the registry points to a record that carries the entry's
key as its handle. -/
def World.keyedByHandle (w : World) : Prop :=
  ∀ e ∈ w.gConnections, (w.heap[e.2]?).map MAConn.handle = some e.1

/-! ## Concrete scenarios -/

/-- Scenario 1: a stream record with handle 1 on which a connect is pending. -/
def scenario1 : World :=
  { heap := [{ MAStreamConn.mk 1 100 with state := 7 }], gConnections := [(1, 0)],
    gConnNextHandle := 2, trace := [] }

/-- Scenario 2: a listener record with handle 2 on which an accept is pending;
the counter stands at 3. -/
def scenario2 : World :=
  { heap := [MAStreamConn.mk 1 100, { MAServerConn.mk 2 200 with state := 16 }],
    gConnections := [(1, 0), (2, 1)], gConnNextHandle := 3, trace := [] }

/-- Scenario 3: a stream record with handle 4 on which a read is pending. -/
def scenario3 : World :=
  { heap := [{ MAStreamConn.mk 4 100 with state := 1 }], gConnections := [(4, 0)],
    gConnNextHandle := 5, trace := [] }

/-- Scenario 3 after `close` has set the cancel flag, called the abort request
and emptied `clo`, while the read is still blocked. -/
def scenario3Closing : World :=
  { heap := [{ MAStreamConn.mk 4 100 with state := 1, cancel := true, clo := none }],
    gConnections := [(4, 0)], gConnNextHandle := 5,
    trace := [Act.writeCancel 0 true, Act.closableClose 100, Act.writeClo 0] }

/-- A stream record with handle 4 on which a write is pending while the record
is being closed. -/
def scenarioWriteClosing : World :=
  { heap := [{ MAStreamConn.mk 4 100 with state := 2, cancel := true, clo := none }],
    gConnections := [(4, 0)], gConnNextHandle := 5, trace := [] }

/-- A stream record with handle 4 on which a write is pending. -/
def scenarioWrite : World :=
  { heap := [{ MAStreamConn.mk 4 100 with state := 2 }],
    gConnections := [(4, 0)], gConnNextHandle := 5, trace := [] }

/-- The pending mask seen by the closing thread in scenario 3: the read is
still pending on the first two passages and has completed by the third. -/
def scenario3Obs (i : Nat) : Int := if i < 2 then 1 else 0

/-- No operation of another thread completes during the close. -/
def noOthers (_ : Nat) : List Op := []

/-- Closing the listener of scenario 2 while its accept is in flight: the
accept succeeds on a worker thread before the closing thread first takes the
lock. -/
def scenario2Others (i : Nat) : List Op := if i = 0 then [Op.Accept 1 0 300] else []

/-- The pending mask seen while closing the listener of scenario 2: the accept
has completed when the first passage looks. -/
def scenario2Obs (_ : Nat) : Int := 0

/-- Three executions of `Accept::run` on the listener of scenario 2: a
success, a failure, a success. -/
def scenario2Calls : List AcceptCall :=
  [{ mac := 1, res := 0, conn := 300 }, { mac := 1, res := -5, conn := 0 },
   { mac := 1, res := 0, conn := 301 }]

/-! ## Bit operations -/

theorem cNot_eq_lnot (x : Int) : cNot x = Int.lnot x := by
  cases x <;> rfl

theorem nat_xor_and_eq_ldiff (m n : Nat) : m ^^^ (m &&& n) = Nat.ldiff m n := by
  apply Nat.eq_of_testBit_eq
  intro i
  cases hm : m.testBit i <;> cases hn : n.testBit i <;> simp [Nat.testBit_ldiff, hm, hn]

/-- The function `cAnd` is the bitwise conjunction of integers. -/
theorem cAnd_eq_land (x y : Int) : cAnd x y = Int.land x y := by
  cases x <;> cases y <;> simp [cAnd, Int.land, nat_xor_and_eq_ldiff]

theorem nat_mask_a (a b : Nat) : (a ^^^ (a &&& b)) &&& b = 0 := by
  apply Nat.eq_of_testBit_eq
  intro i
  cases ha : a.testBit i <;> cases hb : b.testBit i <;> simp [ha, hb]

theorem nat_mask_b (a b : Nat) : (a &&& b) ^^^ ((a &&& b) &&& b) = 0 := by
  apply Nat.eq_of_testBit_eq
  intro i
  cases ha : a.testBit i <;> cases hb : b.testBit i <;> simp [ha, hb]

theorem nat_mask_c (a b : Nat) : b ^^^ (b &&& (a ||| b)) = 0 := by
  apply Nat.eq_of_testBit_eq
  intro i
  cases ha : a.testBit i <;> cases hb : b.testBit i <;> simp [ha, hb]

theorem nat_mask_d (a b : Nat) : (b ^^^ (b &&& a)) ^^^ ((b ^^^ (b &&& a)) &&& b) = 0 := by
  apply Nat.eq_of_testBit_eq
  intro i
  cases ha : a.testBit i <;> cases hb : b.testBit i <;> simp [ha, hb]

/-- After `state &= ~opcode` no bit of `opcode` is left in `state`. -/
theorem cAnd_cNot_cAnd (s o : Int) : cAnd (cAnd s (cNot o)) o = 0 := by
  cases s <;> cases o <;>
    simp [cAnd, cNot, nat_mask_a, nat_mask_b, nat_mask_c, nat_mask_d]

/-! ## Basic facts about the world -/

@[simp] theorem log_heap (w : World) (a : Act) : (w.log a).heap = w.heap := rfl

@[simp] theorem log_gConnections (w : World) (a : Act) :
    (w.log a).gConnections = w.gConnections := rfl

@[simp] theorem log_gConnNextHandle (w : World) (a : Act) :
    (w.log a).gConnNextHandle = w.gConnNextHandle := rfl

@[simp] theorem log_trace (w : World) (a : Act) : (w.log a).trace = w.trace ++ [a] := rfl

theorem getElem?_set_same (l : List MAConn) (mac : Nat) (m x : MAConn)
    (h : l[mac]? = some m) : (l.set mac x)[mac]? = some x := by
  have hlt : mac < l.length := by
    by_contra hc
    rw [List.getElem?_eq_none (Nat.le_of_not_lt hc)] at h
    cases h
  exact List.getElem?_set_self hlt

/-- The explicit effect of `handleResult` on a world whose address `mac` holds
the record `m`. -/
theorem handleResult_eq (K : ConnConsts) (mac : Nat) (opcode result : Int) (lock : Bool)
    (w : World) (m : MAConn) (h : w.heap[mac]? = some m) :
    ConnOp.handleResult K mac opcode result lock w = some
      { heap := w.heap.set mac { m with state := cAnd m.state (cNot opcode) },
        gConnections := w.gConnections,
        gConnNextHandle := w.gConnNextHandle,
        trace := w.trace ++ ((if lock then [Act.lock] else []) ++
          [Act.debugAssert (decide (cAnd m.state opcode ≠ 0)),
           Act.writeState mac (cAnd m.state (cNot opcode)),
           Act.pushEvent
             { type := K.EVENT_TYPE_CONN, handle := m.handle, opType := opcode,
               result := if result < 0 ∧ m.cancel = true then K.CONNERR_CANCELED else result }] ++
          (if lock then [Act.unlock] else [])) } := by
  cases lock <;>
    simp [ConnOp.handleResult, gConnMutex.lock, gConnMutex.unlock, ConnPushEvent,
      World.setState, World.log, World.update, h]

/-- The explicit effect of `gConnections.insert`. -/
theorem registryInsert_eq (w : World) (h : Int) (p : Nat) :
    w.registryInsert h p =
      { heap := w.heap,
        gConnections := if (w.find h).isSome then w.gConnections else w.gConnections ++ [(h, p)],
        gConnNextHandle := w.gConnNextHandle,
        trace := w.trace ++ [Act.registryInsert h p (w.find h).isNone] } := by
  unfold World.registryInsert
  cases hf : w.find h <;> simp [World.log]

/-- A record below the end of the heap is not moved by an allocation. -/
theorem getElem?_alloc (l : List MAConn) (mac : Nat) (m x : MAConn) (h : l[mac]? = some m) :
    (l ++ [x])[mac]? = some m := by
  have hlt : mac < l.length := by
    by_contra hc
    rw [List.getElem?_eq_none (Nat.le_of_not_lt hc)] at h
    cases h
  rw [List.getElem?_append_left hlt, h]

/-- The explicit effect of a failed `Accept::run`. -/
theorem Accept_run_failure_eq (K : ConnConsts) (mac : Nat) (res : Int) (conn : Nat)
    (w : World) (m : MAConn) (h : w.heap[mac]? = some m) (hres : res < 0) :
    Accept.run K mac res conn w = some
      { heap := w.heap.set mac { m with state := cAnd m.state (cNot K.CONNOP_ACCEPT) },
        gConnections := w.gConnections,
        gConnNextHandle := w.gConnNextHandle,
        trace := w.trace ++
          [Act.transport m.res Call.accept res, Act.lock,
           Act.debugAssert (decide (cAnd m.state K.CONNOP_ACCEPT ≠ 0)),
           Act.writeState mac (cAnd m.state (cNot K.CONNOP_ACCEPT)),
           Act.pushEvent
             { type := K.EVENT_TYPE_CONN, handle := m.handle, opType := K.CONNOP_ACCEPT,
               result := if m.cancel = true then K.CONNERR_CANCELED else res },
           Act.unlock] } := by
  have h1 : (w.log (Act.transport m.res Call.accept res)).heap[mac]? = some m := by
    simpa using h
  simp only [Accept.run, h, hres, if_true]
  rw [handleResult_eq K mac _ _ _ _ m h1]
  simp [hres]

/-- The explicit effect of a successful `Accept::run`. -/
theorem Accept_run_success_eq (K : ConnConsts) (mac : Nat) (res : Int) (conn : Nat)
    (w : World) (m : MAConn) (h : w.heap[mac]? = some m) (hres : 0 ≤ res) :
    Accept.run K mac res conn w = some
      { heap := (w.heap ++ [MAStreamConn.mk w.gConnNextHandle conn]).set mac
          { m with state := cAnd m.state (cNot K.CONNOP_ACCEPT) },
        gConnections :=
          if (w.find w.gConnNextHandle).isSome then w.gConnections
          else w.gConnections ++ [(w.gConnNextHandle, w.heap.length)],
        gConnNextHandle := w.gConnNextHandle + 1,
        trace := w.trace ++
          [Act.transport m.res Call.accept res,
           Act.registryInsert w.gConnNextHandle w.heap.length (w.find w.gConnNextHandle).isNone,
           Act.lock,
           Act.debugAssert (decide (cAnd m.state K.CONNOP_ACCEPT ≠ 0)),
           Act.writeState mac (cAnd m.state (cNot K.CONNOP_ACCEPT)),
           Act.pushEvent
             { type := K.EVENT_TYPE_CONN, handle := m.handle, opType := K.CONNOP_ACCEPT,
               result := if w.gConnNextHandle < 0 ∧ m.cancel = true then K.CONNERR_CANCELED
                 else w.gConnNextHandle },
           Act.unlock] } := by
  have hres' : ¬ res < 0 := not_lt.mpr hres
  have h1 : (w.heap ++ [MAStreamConn.mk w.gConnNextHandle conn])[mac]? = some m :=
    getElem?_alloc w.heap mac m _ h
  simp only [Accept.run, h, hres', if_false, World.alloc, registryInsert_eq]
  rw [handleResult_eq K mac _ _ _ _ m (by simpa using h1)]
  simp [World.find]

/-- The explicit effect of `handleResult`, taking the lock itself, after one
logged action `a`: the shape of the six operations that call the transport and
hand the value straight to `handleResult`. -/
theorem handleResult_log_eq (K : ConnConsts) (mac : Nat) (opcode result : Int) (a : Act)
    (w : World) (m : MAConn) (h : w.heap[mac]? = some m) :
    ConnOp.handleResult K mac opcode result true (w.log a) = some
      { heap := w.heap.set mac { m with state := cAnd m.state (cNot opcode) },
        gConnections := w.gConnections,
        gConnNextHandle := w.gConnNextHandle,
        trace := w.trace ++
          [a, Act.lock,
           Act.debugAssert (decide (cAnd m.state opcode ≠ 0)),
           Act.writeState mac (cAnd m.state (cNot opcode)),
           Act.pushEvent
             { type := K.EVENT_TYPE_CONN, handle := m.handle, opType := opcode,
               result := if result < 0 ∧ m.cancel = true then K.CONNERR_CANCELED else result },
           Act.unlock] } := by
  rw [handleResult_eq K mac _ _ _ _ m (by simpa using h)]
  simp

/-- The explicit effect of `ConnReadToData::run`. -/
theorem ConnReadToData_run_eq (K : ConnConsts) (mac : Nat) (handle size ret : Int)
    (w : World) (m : MAConn) (h : w.heap[mac]? = some m) :
    ConnReadToData.run K mac handle size ret w = some
      { heap := w.heap.set mac { m with state := cAnd m.state (cNot K.CONNOP_READ) },
        gConnections := w.gConnections,
        gConnNextHandle := w.gConnNextHandle,
        trace := w.trace ++
          [Act.transport m.res (Call.read size) ret, Act.lock, Act.defluxBinPush handle,
           Act.debugAssert (decide (cAnd m.state K.CONNOP_READ ≠ 0)),
           Act.writeState mac (cAnd m.state (cNot K.CONNOP_READ)),
           Act.pushEvent
             { type := K.EVENT_TYPE_CONN, handle := m.handle, opType := K.CONNOP_READ,
               result := if ret < 0 ∧ m.cancel = true then K.CONNERR_CANCELED else ret },
           Act.unlock] } := by
  simp only [ConnReadToData.run, h]
  rw [handleResult_eq K mac _ _ _ _ m
    (by simpa [DefluxBinPushEvent, gConnMutex.lock] using h)]
  simp [DefluxBinPushEvent, gConnMutex.lock, gConnMutex.unlock, World.log]

/-- The value of `result` and the actions of the staging step of
`ConnWriteFromData::run`. -/
theorem ConnWriteFromData_stage_eq (K : ConnConsts) (m : MAConn) (size : Int)
    (ptrc : Option Nat) (readOk : Bool) (ret : Int) (w : World) :
    ConnWriteFromData.stage K m size ptrc readOk ret w =
      (if ptrc.isNone ∧ readOk = false then K.CONNERR_GENERIC else ret,
       { w with trace := w.trace ++
          (if ptrc.isSome then [Act.transport m.res (Call.write size) ret]
           else if readOk = false then [Act.streamRead size false]
           else [Act.streamRead size true, Act.transport m.res (Call.write size) ret]) }) := by
  cases ptrc <;> cases readOk <;> simp [ConnWriteFromData.stage, World.log]

/-- The explicit effect of `ConnWriteFromData::run`. -/
theorem ConnWriteFromData_run_eq (K : ConnConsts) (mac : Nat) (handle size : Int)
    (ptrc : Option Nat) (readOk : Bool) (ret : Int)
    (w : World) (m : MAConn) (h : w.heap[mac]? = some m) :
    ConnWriteFromData.run K mac handle size ptrc readOk ret w = some
      { heap := w.heap.set mac { m with state := cAnd m.state (cNot K.CONNOP_WRITE) },
        gConnections := w.gConnections,
        gConnNextHandle := w.gConnNextHandle,
        trace := w.trace ++
          ((if ptrc.isSome then [Act.transport m.res (Call.write size) ret]
            else if readOk = false then [Act.streamRead size false]
            else [Act.streamRead size true, Act.transport m.res (Call.write size) ret]) ++
          [Act.lock, Act.defluxBinPush handle,
           Act.debugAssert (decide (cAnd m.state K.CONNOP_WRITE ≠ 0)),
           Act.writeState mac (cAnd m.state (cNot K.CONNOP_WRITE)),
           Act.pushEvent
             { type := K.EVENT_TYPE_CONN, handle := m.handle, opType := K.CONNOP_WRITE,
               result :=
                 if (if ptrc.isNone ∧ readOk = false then K.CONNERR_GENERIC else ret) < 0 ∧
                     m.cancel = true
                 then K.CONNERR_CANCELED
                 else (if ptrc.isNone ∧ readOk = false then K.CONNERR_GENERIC else ret) },
           Act.unlock]) } := by
  simp only [ConnWriteFromData.run, h, ConnWriteFromData_stage_eq]
  rw [handleResult_eq K mac _ _ _ _ m
    (by simpa [DefluxBinPushEvent, gConnMutex.lock] using h)]
  simp [DefluxBinPushEvent, gConnMutex.lock, gConnMutex.unlock, World.log]

/-- C2. Exactly one event per executed operation: for each of the nine
operation classes, every record and every value returned from outside, one call
of `run()` returns and pushes exactly one connection event; its handle is the
handle of the record the operation is bound to and its `opType` is the opcode of
the class: `CONNOP_CONNECT` for `Connect`, `CONNOP_READ` for `ConnRead`,
`ConnReadFrom` and `ConnReadToData`, `CONNOP_WRITE` for `ConnWrite`,
`ConnWriteTo` and `ConnWriteFromData`, `CONNOP_FINISH` for `HttpFinish`,
`CONNOP_ACCEPT` for `Accept`. -/
theorem run_pushes_exactly_one_event (K : ConnConsts) (op : Op) (w : World) (m : MAConn)
    (h : w.heap[op.mac]? = some m) :
    ∃ w' acts e, op.run K w = some w' ∧ w'.trace = w.trace ++ acts ∧ eventsOf acts = [e] ∧
      e.type = K.EVENT_TYPE_CONN ∧ e.handle = m.handle ∧ e.opType = op.opcode K ∧
      op.opcode K =
        (match op with
          | Op.Connect _ _ => K.CONNOP_CONNECT
          | Op.ConnRead _ _ _ => K.CONNOP_READ
          | Op.ConnReadFrom _ _ _ => K.CONNOP_READ
          | Op.ConnReadToData _ _ _ _ => K.CONNOP_READ
          | Op.ConnWrite _ _ _ => K.CONNOP_WRITE
          | Op.ConnWriteTo _ _ _ => K.CONNOP_WRITE
          | Op.ConnWriteFromData _ _ _ _ _ _ => K.CONNOP_WRITE
          | Op.HttpFinish _ _ _ => K.CONNOP_FINISH
          | Op.Accept _ _ _ => K.CONNOP_ACCEPT) := by
  have hop : op.opcode K =
        (match op with
          | Op.Connect _ _ => K.CONNOP_CONNECT
          | Op.ConnRead _ _ _ => K.CONNOP_READ
          | Op.ConnReadFrom _ _ _ => K.CONNOP_READ
          | Op.ConnReadToData _ _ _ _ => K.CONNOP_READ
          | Op.ConnWrite _ _ _ => K.CONNOP_WRITE
          | Op.ConnWriteTo _ _ _ => K.CONNOP_WRITE
          | Op.ConnWriteFromData _ _ _ _ _ _ => K.CONNOP_WRITE
          | Op.HttpFinish _ _ _ => K.CONNOP_FINISH
          | Op.Accept _ _ _ => K.CONNOP_ACCEPT) := by
    cases op <;> rfl
  suffices hmain : ∃ w' acts e, op.run K w = some w' ∧ w'.trace = w.trace ++ acts ∧
      eventsOf acts = [e] ∧ e.type = K.EVENT_TYPE_CONN ∧ e.handle = m.handle ∧
      e.opType = op.opcode K by
    obtain ⟨w', acts, e, h1, h2, h3, h4, h5, h6⟩ := hmain
    exact ⟨w', acts, e, h1, h2, h3, h4, h5, h6, hop⟩
  clear hop
  cases op with
  | Connect mac ret =>
    simp only [Op.mac] at h
    simp only [Op.run, Connect.run, h, handleResult_log_eq K mac _ _ _ w m h]
    exact ⟨_, _, _, rfl, rfl, rfl, rfl, rfl, rfl⟩
  | ConnRead mac size ret =>
    simp only [Op.mac] at h
    simp only [Op.run, ConnRead.run, h, handleResult_log_eq K mac _ _ _ w m h]
    exact ⟨_, _, _, rfl, rfl, rfl, rfl, rfl, rfl⟩
  | ConnReadFrom mac size ret =>
    simp only [Op.mac] at h
    simp only [Op.run, ConnReadFrom.run, h, handleResult_log_eq K mac _ _ _ w m h]
    exact ⟨_, _, _, rfl, rfl, rfl, rfl, rfl, rfl⟩
  | ConnWrite mac size ret =>
    simp only [Op.mac] at h
    simp only [Op.run, ConnWrite.run, h, handleResult_log_eq K mac _ _ _ w m h]
    exact ⟨_, _, _, rfl, rfl, rfl, rfl, rfl, rfl⟩
  | ConnWriteTo mac size ret =>
    simp only [Op.mac] at h
    simp only [Op.run, ConnWriteTo.run, h, handleResult_log_eq K mac _ _ _ w m h]
    exact ⟨_, _, _, rfl, rfl, rfl, rfl, rfl, rfl⟩
  | ConnReadToData mac handle size ret =>
    simp only [Op.mac] at h
    simp only [Op.run, ConnReadToData_run_eq K mac handle size ret w m h]
    exact ⟨_, _, _, rfl, rfl, rfl, rfl, rfl, rfl⟩
  | ConnWriteFromData mac handle size ptrc readOk ret =>
    simp only [Op.mac] at h
    cases ptrc <;> cases readOk <;>
    · simp only [Op.run, ConnWriteFromData_run_eq K mac handle size _ _ ret w m h]
      exact ⟨_, _, _, rfl, rfl, rfl, rfl, rfl, rfl⟩
  | HttpFinish mac http ret =>
    simp only [Op.mac] at h
    simp only [Op.run, HttpFinish.run, handleResult_log_eq K mac _ _ _ w m h]
    exact ⟨_, _, _, rfl, rfl, rfl, rfl, rfl, rfl⟩
  | Accept mac res conn =>
    simp only [Op.mac] at h
    by_cases hres : res < 0
    · simp only [Op.run, Accept_run_failure_eq K mac res conn w m h hres]
      exact ⟨_, _, _, rfl, rfl, rfl, rfl, rfl, rfl⟩
    · simp only [Op.run, Accept_run_success_eq K mac res conn w m h (not_lt.mp hres)]
      exact ⟨_, _, _, rfl, rfl, rfl, rfl, rfl, rfl⟩

/-- C2, scenario 1: a connect on the stream record with handle 1 pushes one
event, for handle 1 and opcode connect. -/
theorem run_pushes_exactly_one_event_witness :
    scenario1.heap[(Op.Connect 0 0).mac]? = some { MAStreamConn.mk 1 100 with state := 7 } ∧
    ∃ w' e, (Op.Connect 0 0).run maapi scenario1 = some w' ∧ eventsOf w'.trace = [e] ∧
      e.handle = 1 ∧ e.opType = 7 := by
  refine ⟨rfl, ?_⟩
  obtain ⟨w', acts, e, h1, h2, h3, _, h5, h6, _⟩ :=
    run_pushes_exactly_one_event maapi (Op.Connect 0 0) scenario1 _ rfl
  refine ⟨w', e, h1, ?_, h5, h6⟩
  rw [h2]
  simpa [scenario1] using h3

/-- C1. Result translation in `ConnOp::handleResult`: for every record, opcode
and raw result `r` (and both values of `lock`), `handleResult` returns and the
one event it publishes carries `CONNERR_CANCELED` when `r < 0` and the record's
cancel flag is set, and exactly `r` in every other case.  The same holds for the
event of `ConnRead::run` when the transport read returns `r`. -/
theorem handleResult_translates_result (K : ConnConsts) (mac : Nat) (opcode r : Int)
    (lock : Bool) (w : World) (m : MAConn) (h : w.heap[mac]? = some m) :
    (∃ w' acts e, ConnOp.handleResult K mac opcode r lock w = some w' ∧
      w'.trace = w.trace ++ acts ∧ eventsOf acts = [e] ∧
      e.handle = m.handle ∧ e.opType = opcode ∧
      (r < 0 ∧ m.cancel = true → e.result = K.CONNERR_CANCELED) ∧
      (¬ (r < 0 ∧ m.cancel = true) → e.result = r)) ∧
    (∀ size : Int, ∃ w' acts, ConnRead.run K mac size r w = some w' ∧
      w'.trace = w.trace ++ acts ∧
      eventsOf acts =
        [{ type := K.EVENT_TYPE_CONN, handle := m.handle, opType := K.CONNOP_READ,
           result := if r < 0 ∧ m.cancel = true then K.CONNERR_CANCELED else r }]) := by
  constructor
  · simp only [handleResult_eq K mac opcode r lock w m h]
    refine ⟨_, _,
      { type := K.EVENT_TYPE_CONN, handle := m.handle, opType := opcode,
        result := if r < 0 ∧ m.cancel = true then K.CONNERR_CANCELED else r },
      rfl, rfl, ?_, rfl, rfl, ?_, ?_⟩
    · cases lock <;> rfl
    · intro hc
      simp [hc]
    · intro hc
      simp [hc]
  · intro size
    simp only [ConnRead.run, h, handleResult_log_eq K mac _ _ _ w m h]
    exact ⟨_, _, rfl, rfl, rfl⟩

/-- C1, scenario 3: a read on handle 4 whose transport read returns -1 after
close has set the cancel flag yields the event `{4, read, CANCELED}`. -/
theorem handleResult_translates_result_witness :
    scenario3Closing.heap[0]? =
      some { MAStreamConn.mk 4 100 with state := 1, cancel := true, clo := none } ∧
    ∃ w' acts, ConnRead.run maapi 0 10 (-1) scenario3Closing = some w' ∧
      w'.trace = scenario3Closing.trace ++ acts ∧
      eventsOf acts =
        [{ type := maapi.EVENT_TYPE_CONN, handle := 4, opType := maapi.CONNOP_READ,
           result := maapi.CONNERR_CANCELED }] :=
  ⟨rfl, (handleResult_translates_result maapi 0 maapi.CONNOP_READ (-1) true
    scenario3Closing _ rfl).2 10⟩

/-- C3. Mutate-then-publish in `ConnOp::handleResult`: for every record and
opcode, the write `state = state & ~opcode` is the action directly before the
call of `ConnPushEvent`; `ConnPushEvent` is applied to a world in which the
record's `state` has no bit of `opcode`; replaying the actions, the pending mask
has no bit of the opcode at the moment the event is pushed; and in the world
that `handleResult` returns, `state & opcode == 0`. -/
theorem handleResult_clears_before_publish (K : ConnConsts) (mac : Nat) (opcode r : Int)
    (lock : Bool) (w : World) (m : MAConn) (h : w.heap[mac]? = some m) :
    ∃ w' wpre ep pre post,
      ConnOp.handleResult K mac opcode r lock w = some w' ∧
      ep.handle = m.handle ∧ ep.opType = opcode ∧
      wpre.heap[mac]? = some { m with state := cAnd m.state (cNot opcode) } ∧
      cAnd (cAnd m.state (cNot opcode)) opcode = 0 ∧
      w' = (if lock then gConnMutex.unlock (ConnPushEvent ep wpre) else ConnPushEvent ep wpre) ∧
      w'.trace = w.trace ++
        (pre ++ [Act.writeState mac (cAnd m.state (cNot opcode)), Act.pushEvent ep] ++ post) ∧
      eventsOf pre = [] ∧ eventsOf post = [] ∧
      publishedClear mac m.state
        (pre ++ [Act.writeState mac (cAnd m.state (cNot opcode)), Act.pushEvent ep] ++ post)
        = true ∧
      ∃ m', w'.heap[mac]? = some m' ∧ cAnd m'.state opcode = 0 := by
  simp only [handleResult_eq K mac opcode r lock w m h]
  refine ⟨_,
    { heap := w.heap.set mac { m with state := cAnd m.state (cNot opcode) },
      gConnections := w.gConnections, gConnNextHandle := w.gConnNextHandle,
      trace := w.trace ++ ((if lock then [Act.lock] else []) ++
        [Act.debugAssert (decide (cAnd m.state opcode ≠ 0)),
         Act.writeState mac (cAnd m.state (cNot opcode))]) },
    { type := K.EVENT_TYPE_CONN, handle := m.handle, opType := opcode,
      result := if r < 0 ∧ m.cancel = true then K.CONNERR_CANCELED else r },
    (if lock then [Act.lock] else []) ++ [Act.debugAssert (decide (cAnd m.state opcode ≠ 0))],
    (if lock then [Act.unlock] else []),
    rfl, rfl, rfl, getElem?_set_same _ _ _ _ h, cAnd_cNot_cAnd _ _, ?_, ?_, ?_, ?_, ?_,
    _, getElem?_set_same _ _ _ _ h, cAnd_cNot_cAnd _ _⟩
  · cases lock <;> simp [gConnMutex.unlock, ConnPushEvent, World.log]
  · cases lock <;> simp
  · cases lock <;> rfl
  · cases lock <;> rfl
  · cases lock <;> simp [publishedClear, cAnd_cNot_cAnd]

/-- C3, scenario 3: when the pending read on handle 4 completes with 5 bytes,
the read bit is cleared before the event is pushed. -/
theorem handleResult_clears_before_publish_witness :
    scenario3.heap[0]? = some { MAStreamConn.mk 4 100 with state := 1 } ∧
    ∃ w' ep, ConnOp.handleResult maapi 0 maapi.CONNOP_READ 5 true scenario3 = some w' ∧
      w'.trace = [Act.lock, Act.debugAssert true, Act.writeState 0 0, Act.pushEvent ep,
        Act.unlock] ∧
      ep.handle = 4 ∧ ep.opType = 1 ∧
      ∃ m', w'.heap[0]? = some m' ∧ cAnd m'.state maapi.CONNOP_READ = 0 := by
  refine ⟨rfl, ?_⟩
  obtain ⟨w', wpre, ep, pre, post, h1, h2, h3, _, _, _, _, _, _, _, h4⟩ :=
    handleResult_clears_before_publish maapi 0 maapi.CONNOP_READ 5 true scenario3 _ rfl
  have h5 : ConnOp.handleResult maapi 0 maapi.CONNOP_READ 5 true scenario3 = some
      { heap := [{ MAStreamConn.mk 4 100 with state := 0 }], gConnections := [(4, 0)],
        gConnNextHandle := 5,
        trace := [Act.lock, Act.debugAssert true, Act.writeState 0 0,
          Act.pushEvent { type := 4, handle := 4, opType := 1, result := 5 }, Act.unlock] } := by
    rfl
  rw [h5] at h1
  cases h1
  exact ⟨_, _, h5, rfl, rfl, rfl, h4⟩

/-- A key below which all keys of the registry lie is not in the registry. -/
theorem lookup_none_of_keys_lt (l : List (Int × Nat)) (h : Int)
    (hk : ∀ k ∈ l.map Prod.fst, k < h) : l.lookup h = none := by
  induction l with
  | nil => rfl
  | cons x t ih =>
    obtain ⟨k, v⟩ := x
    have hkh : k < h := hk k (by simp)
    have hb : (h == k) = false := by simpa using (ne_of_lt hkh).symm
    simp only [List.lookup, hb]
    exact ih (fun k' hk' => hk k' (by simp at hk' ⊢; exact Or.inr hk'))

/-- The record just allocated sits at the old end of the heap, whatever is
written to an older record afterwards. -/
theorem getElem?_alloc_new (l : List MAConn) (mac : Nat) (m x y : MAConn)
    (h : l[mac]? = some m) : ((l ++ [x]).set mac y)[l.length]? = some x := by
  have hlt : mac < l.length := by
    by_contra hc
    rw [List.getElem?_eq_none (Nat.le_of_not_lt hc)] at h
    cases h
  rw [List.getElem?_set_ne (Nat.ne_of_lt hlt)]
  simp

/-- C8 as stated fails when the record is being closed: with no direct
pointer and a failed staging read, the published event carries
`CONNERR_CANCELED` (-13), not `CONNERR_GENERIC` (-2), because
`handleResult` overrides every negative result of a canceling record. -/
theorem ConnWriteFromData_generic_counterexample :
    ∃ w', ConnWriteFromData.run maapi 0 9 10 none false 7 scenarioWriteClosing = some w' ∧
      eventsOf w'.trace =
        [{ type := 4, handle := 4, opType := maapi.CONNOP_WRITE,
           result := maapi.CONNERR_CANCELED }] ∧
      eventsOf w'.trace ≠
        [{ type := 4, handle := 4, opType := maapi.CONNOP_WRITE,
           result := maapi.CONNERR_GENERIC }] :=
  ⟨_, rfl, rfl, by decide⟩

/-- C8, amended.  Generic failure in `ConnWriteFromData`: when the source
stream exposes no direct pointer and staging the data with `src.read` fails,
the raw result is `CONNERR_GENERIC`, the transport write is not called, and the
single published event has opType `CONNOP_WRITE` and result `CONNERR_GENERIC`
when the record's cancel flag is clear, `CONNERR_CANCELED` when it is set
(`CONNERR_GENERIC` being negative).  When staging succeeds or a direct pointer
exists, the raw result is exactly the value returned by the transport write,
which is called, and the event carries what `handleResult` makes of it. -/
theorem ConnWriteFromData_generic_failure (K : ConnConsts) (mac : Nat) (handle size : Int)
    (ptrc : Option Nat) (readOk : Bool) (ret : Int) (w : World) (m : MAConn)
    (h : w.heap[mac]? = some m) (hG : K.CONNERR_GENERIC < 0) :
    (ptrc = none → readOk = false →
      (ConnWriteFromData.stage K m size ptrc readOk ret w).1 = K.CONNERR_GENERIC ∧
      ∃ w' acts, ConnWriteFromData.run K mac handle size ptrc readOk ret w = some w' ∧
        w'.trace = w.trace ++ acts ∧
        (∀ r c x, Act.transport r c x ∉ acts) ∧
        eventsOf acts =
          [{ type := K.EVENT_TYPE_CONN, handle := m.handle, opType := K.CONNOP_WRITE,
             result := if m.cancel = true then K.CONNERR_CANCELED else K.CONNERR_GENERIC }]) ∧
    (ptrc ≠ none ∨ readOk = true →
      (ConnWriteFromData.stage K m size ptrc readOk ret w).1 = ret ∧
      ∃ w' acts, ConnWriteFromData.run K mac handle size ptrc readOk ret w = some w' ∧
        w'.trace = w.trace ++ acts ∧
        Act.transport m.res (Call.write size) ret ∈ acts ∧
        eventsOf acts =
          [{ type := K.EVENT_TYPE_CONN, handle := m.handle, opType := K.CONNOP_WRITE,
             result := if ret < 0 ∧ m.cancel = true then K.CONNERR_CANCELED else ret }]) := by
  constructor
  · intro hp hr
    subst hp
    subst hr
    refine ⟨by simp [ConnWriteFromData_stage_eq], ?_⟩
    simp only [ConnWriteFromData_run_eq K mac handle size none false ret w m h]
    refine ⟨_, _, rfl, rfl, ?_, ?_⟩
    · intro r c x hmem
      simp at hmem
    · simp [eventsOf, hG]
  · intro hc
    have hne : ¬ (ptrc.isNone = true ∧ readOk = false) := by
      rintro ⟨h1, h2⟩
      rcases hc with h3 | h3
      · cases ptrc
        · exact h3 rfl
        · cases h1
      · rw [h3] at h2
        cases h2
    refine ⟨by rw [ConnWriteFromData_stage_eq]; exact if_neg hne, ?_⟩
    simp only [ConnWriteFromData_run_eq K mac handle size ptrc readOk ret w m h]
    refine ⟨_, _, rfl, rfl, ?_, ?_⟩
    · cases ptrc <;> cases readOk <;> simp at hne ⊢
    · cases ptrc <;> cases readOk <;> simp [eventsOf] at hne ⊢

/-- C8, on a record that is not being closed: a failed staging read yields the
event `{4, write, CONNERR_GENERIC}` and no transport write. -/
theorem ConnWriteFromData_generic_failure_witness :
    (scenarioWrite.heap[0]? = some { MAStreamConn.mk 4 100 with state := 2 } ∧
      maapi.CONNERR_GENERIC < 0) ∧
    ∃ w' acts, ConnWriteFromData.run maapi 0 9 10 none false 7 scenarioWrite = some w' ∧
      w'.trace = scenarioWrite.trace ++ acts ∧
      (∀ r c x, Act.transport r c x ∉ acts) ∧
      eventsOf acts =
        [{ type := 4, handle := 4, opType := maapi.CONNOP_WRITE,
           result := maapi.CONNERR_GENERIC }] :=
  ⟨⟨rfl, by decide⟩,
    ((ConnWriteFromData_generic_failure maapi 0 9 10 none false 7 scenarioWrite _ rfl
      (by decide)).1 rfl rfl).2⟩

/-- C10 as stated fails: in `ConnReadToData::run` and in
`ConnWriteFromData::run` the buffer-object owner is notified first and the
completion event is pushed afterwards, not the other way round. -/
theorem buffer_ops_order_counterexample :
    (∃ w', ConnReadToData.run maapi 0 9 10 5 scenario3 = some w' ∧
      w'.trace =
        [Act.transport 100 (Call.read 10) 5, Act.lock, Act.defluxBinPush 9,
         Act.debugAssert true, Act.writeState 0 0,
         Act.pushEvent { type := 4, handle := 4, opType := 1, result := 5 }, Act.unlock] ∧
      eventBeforeNotify w'.trace = false ∧ notifyBeforeEvent w'.trace = true) ∧
    (∃ w', ConnWriteFromData.run maapi 0 9 10 (some 0) true 10 scenarioWrite = some w' ∧
      w'.trace =
        [Act.transport 100 (Call.write 10) 10, Act.lock, Act.defluxBinPush 9,
         Act.debugAssert true, Act.writeState 0 0,
         Act.pushEvent { type := 4, handle := 4, opType := 2, result := 10 }, Act.unlock] ∧
      eventBeforeNotify w'.trace = false ∧ notifyBeforeEvent w'.trace = true) :=
  ⟨⟨_, rfl, rfl, rfl, rfl⟩, ⟨_, rfl, rfl, rfl, rfl⟩⟩

/-- C10, amended.  Notify-then-publish for the buffer-bound operations: every
run of `ConnReadToData` and of `ConnWriteFromData` returns, and after the
transport and staging step (which takes no lock, pushes no event and notifies
nobody) it performs exactly `lock`, `DefluxBinPushEvent` for the data handle,
the assertion, the write of the pending mask, `ConnPushEvent`, `unlock`: one
single acquisition of the lock, inside which the buffer-object owner is
notified first and the completion event is pushed afterwards. -/
theorem buffer_ops_notify_then_publish (K : ConnConsts) (mac : Nat) (handle size : Int)
    (ptrc : Option Nat) (readOk : Bool) (ret : Int) (w : World) (m : MAConn)
    (h : w.heap[mac]? = some m) :
    (∃ w' ep d s, ConnReadToData.run K mac handle size ret w = some w' ∧
      w'.trace = w.trace ++
        ([Act.transport m.res (Call.read size) ret] ++
         [Act.lock, Act.defluxBinPush handle, Act.debugAssert d, Act.writeState mac s,
          Act.pushEvent ep, Act.unlock]) ∧
      ep.handle = m.handle ∧ ep.opType = K.CONNOP_READ ∧
      notifyBeforeEvent
        ([Act.transport m.res (Call.read size) ret] ++
         [Act.lock, Act.defluxBinPush handle, Act.debugAssert d, Act.writeState mac s,
          Act.pushEvent ep, Act.unlock]) = true) ∧
    (∃ w' pre ep d s, ConnWriteFromData.run K mac handle size ptrc readOk ret w = some w' ∧
      (ConnWriteFromData.stage K m size ptrc readOk ret w).2.trace = w.trace ++ pre ∧
      (∀ a ∈ pre, (∃ x c r, a = Act.transport x c r) ∨ ∃ n b, a = Act.streamRead n b) ∧
      w'.trace = w.trace ++
        (pre ++
         [Act.lock, Act.defluxBinPush handle, Act.debugAssert d, Act.writeState mac s,
          Act.pushEvent ep, Act.unlock]) ∧
      ep.handle = m.handle ∧ ep.opType = K.CONNOP_WRITE ∧
      notifyBeforeEvent
        (pre ++
         [Act.lock, Act.defluxBinPush handle, Act.debugAssert d, Act.writeState mac s,
          Act.pushEvent ep, Act.unlock]) = true) := by
  constructor
  · simp only [ConnReadToData_run_eq K mac handle size ret w m h]
    exact ⟨_, ⟨_, _, _, _⟩, _, _, rfl, rfl, rfl, rfl, rfl⟩
  · simp only [ConnWriteFromData_run_eq K mac handle size ptrc readOk ret w m h,
      ConnWriteFromData_stage_eq]
    refine ⟨_, _, ⟨_, _, _, _⟩, _, _, rfl, rfl, ?_, rfl, rfl, rfl, ?_⟩
    · cases ptrc <;> cases readOk <;> simp
    · cases ptrc <;> cases readOk <;> rfl

/-- C10, on the record with handle 4: a read into the buffer object 9 that
returns 5 bytes notifies the buffer owner and then pushes `{4, read, 5}`, inside
one acquisition of the lock. -/
theorem buffer_ops_notify_then_publish_witness :
    scenario3.heap[0]? = some { MAStreamConn.mk 4 100 with state := 1 } ∧
    ∃ w' ep d s, ConnReadToData.run maapi 0 9 10 5 scenario3 = some w' ∧
      w'.trace = scenario3.trace ++
        ([Act.transport 100 (Call.read 10) 5] ++
         [Act.lock, Act.defluxBinPush 9, Act.debugAssert d, Act.writeState 0 s,
          Act.pushEvent ep, Act.unlock]) ∧
      ep.handle = 4 ∧ ep.opType = 1 := by
  refine ⟨rfl, ?_⟩
  obtain ⟨w', ep, d, s, h1, h2, h3, h4, _⟩ :=
    (buffer_ops_notify_then_publish maapi 0 9 10 none false 5 scenario3 _ rfl).1
  exact ⟨w', ep, d, s, h1, h2, h3, h4⟩

/-! ## Close -/

theorem closableClose_not_mem_waitRounds (c : Nat) :
    ∀ n : Nat, Act.closableClose c ∉ waitRounds n
  | 0 => by simp [waitRounds]
  | n + 1 => by
    have ih := closableClose_not_mem_waitRounds c n
    simp [waitRounds, ih]

/-- Entries appended to the registry do not change the lookup of a key that
is already there. -/
theorem lookup_append_of_some (l r : List (Int × Nat)) (h : Int) (p : Nat)
    (hl : l.lookup h = some p) : (l ++ r).lookup h = some p := by
  induction l with
  | nil => simp [List.lookup] at hl
  | cons x t ih =>
    obtain ⟨k, v⟩ := x
    by_cases hk : h = k
    · subst hk
      simpa [List.lookup] using hl
    · have hb : (h == k) = false := by simpa using hk
      simp only [List.cons_append, List.lookup, hb] at hl ⊢
      exact ih hl

/-- A write to the pending mask of the record at `mac` and an allocation at the
end of the heap leave every record in place, up to its pending mask. -/
theorem heap_keeps (l ext : List MAConn) (mac : Nat) (m0 : MAConn) (v : Int)
    (hm : l[mac]? = some m0) (p : Nat) (m : MAConn) (hp : l[p]? = some m) :
    ∃ v', ((l ++ ext).set mac { m0 with state := v })[p]? = some { m with state := v' } := by
  have hlt : mac < l.length := by
    by_contra hc
    rw [List.getElem?_eq_none (Nat.le_of_not_lt hc)] at hm
    cases hm
  by_cases hpm : p = mac
  · subst hpm
    rw [hm] at hp
    cases hp
    have hlt' : p < (l ++ ext).length := by
      rw [List.length_append]
      exact Nat.lt_of_lt_of_le hlt (Nat.le_add_right _ _)
    exact ⟨v, List.getElem?_set_self hlt'⟩
  · have hpl : p < l.length := by
      by_contra hc
      rw [List.getElem?_eq_none (Nat.le_of_not_lt hc)] at hp
      cases hp
    refine ⟨m.state, ?_⟩
    rw [List.getElem?_set_ne (Ne.symm hpm), List.getElem?_append_left hpl, hp]

/-- What any operation does to the heap and to the registry: it writes the
pending mask of its own record, and an accept may allocate a record and append
an entry to the registry. -/
theorem Op_run_frame (K : ConnConsts) (op : Op) (w : World) (m : MAConn)
    (h : w.heap[op.mac]? = some m) :
    ∃ w' ext reg, op.run K w = some w' ∧
      w'.heap = (w.heap ++ ext).set op.mac
        { m with state := cAnd m.state (cNot (op.opcode K)) } ∧
      w'.gConnections = w.gConnections ++ reg := by
  cases op with
  | Connect mac ret =>
    simp only [Op.mac] at h
    simp only [Op.run, Connect.run, h, handleResult_log_eq K mac _ _ _ w m h, Op.mac,
      Op.opcode]
    exact ⟨_, [], [], rfl, by simp, by simp⟩
  | ConnRead mac size ret =>
    simp only [Op.mac] at h
    simp only [Op.run, ConnRead.run, h, handleResult_log_eq K mac _ _ _ w m h, Op.mac,
      Op.opcode]
    exact ⟨_, [], [], rfl, by simp, by simp⟩
  | ConnReadFrom mac size ret =>
    simp only [Op.mac] at h
    simp only [Op.run, ConnReadFrom.run, h, handleResult_log_eq K mac _ _ _ w m h, Op.mac,
      Op.opcode]
    exact ⟨_, [], [], rfl, by simp, by simp⟩
  | ConnWrite mac size ret =>
    simp only [Op.mac] at h
    simp only [Op.run, ConnWrite.run, h, handleResult_log_eq K mac _ _ _ w m h, Op.mac,
      Op.opcode]
    exact ⟨_, [], [], rfl, by simp, by simp⟩
  | ConnWriteTo mac size ret =>
    simp only [Op.mac] at h
    simp only [Op.run, ConnWriteTo.run, h, handleResult_log_eq K mac _ _ _ w m h, Op.mac,
      Op.opcode]
    exact ⟨_, [], [], rfl, by simp, by simp⟩
  | ConnReadToData mac handle size ret =>
    simp only [Op.mac] at h
    simp only [Op.run, ConnReadToData_run_eq K mac handle size ret w m h, Op.mac, Op.opcode]
    exact ⟨_, [], [], rfl, by simp, by simp⟩
  | ConnWriteFromData mac handle size ptrc readOk ret =>
    simp only [Op.mac] at h
    simp only [Op.run, ConnWriteFromData_run_eq K mac handle size ptrc readOk ret w m h,
      Op.mac, Op.opcode]
    exact ⟨_, [], [], rfl, by simp, by simp⟩
  | HttpFinish mac http ret =>
    simp only [Op.mac] at h
    simp only [Op.run, HttpFinish.run, handleResult_log_eq K mac _ _ _ w m h, Op.mac,
      Op.opcode]
    exact ⟨_, [], [], rfl, by simp, by simp⟩
  | Accept mac res conn =>
    simp only [Op.mac] at h
    by_cases hres : res < 0
    · simp only [Op.run, Accept_run_failure_eq K mac res conn w m h hres, Op.mac, Op.opcode]
      exact ⟨_, [], [], rfl, by simp, by simp⟩
    · simp only [Op.run, Accept_run_success_eq K mac res conn w m h (not_lt.mp hres), Op.mac,
        Op.opcode]
      refine ⟨_, [MAStreamConn.mk w.gConnNextHandle conn],
        if (w.find w.gConnNextHandle).isSome then [] else [(w.gConnNextHandle, w.heap.length)],
        rfl, rfl, ?_⟩
      cases w.find w.gConnNextHandle <;> simp

/-- An operation bound to an address that holds no record does not run. -/
theorem Op_run_none (K : ConnConsts) (op : Op) (w : World) (h : w.heap[op.mac]? = none) :
    op.run K w = none := by
  cases op <;> simp only [Op.mac] at h <;>
    simp [Op.run, Connect.run, ConnRead.run, ConnReadFrom.run, ConnWrite.run, ConnWriteTo.run,
      ConnReadToData.run, ConnWriteFromData.run, HttpFinish.run, Accept.run,
      ConnOp.handleResult, gConnMutex.lock, h]

/-- The operations of the other threads leave every record in place, up to its
pending mask, and every entry of the registry. -/
theorem runOthers_keeps (K : ConnConsts) :
    ∀ (ops : List Op) (w : World),
      (∀ (p : Nat) (m : MAConn), w.heap[p]? = some m →
        ∃ v : Int, (runOthers K ops w).heap[p]? = some { m with state := v }) ∧
      (∀ (h : Int) (p : Nat), w.find h = some p → (runOthers K ops w).find h = some p) := by
  intro ops
  induction ops with
  | nil =>
    intro w
    exact ⟨fun p m hp => ⟨m.state, hp⟩, fun h p hf => hf⟩
  | cons op ops ih =>
    intro w
    cases hm : w.heap[op.mac]? with
    | none =>
      simp only [runOthers, Op_run_none K op w hm, Option.getD_none]
      exact ih w
    | some m0 =>
      obtain ⟨w1, ext, reg, hrun, hheap, hreg⟩ := Op_run_frame K op w m0 hm
      simp only [runOthers, hrun, Option.getD_some]
      obtain ⟨ih1, ih2⟩ := ih w1
      constructor
      · intro p m hp
        obtain ⟨v1, hv1⟩ := heap_keeps w.heap ext op.mac m0 _ hm p m hp
        rw [← hheap] at hv1
        obtain ⟨v2, hv2⟩ := ih1 p _ hv1
        exact ⟨v2, hv2⟩
      · intro h p hf
        apply ih2
        simp only [World.find, hreg]
        exact lookup_append_of_some _ _ _ _ hf

/-- The part of a passage through the loop of `MAConn::close` that the closing
thread executes itself, on a world whose address `mac` holds the record `m`. -/
theorem passage_eq (wa : World) (mac : Nat) (m : MAConn) (v : Int)
    (hm : wa.heap[mac]? = some m) :
    MAProcessEvents ((gConnMutex.lock wa).interfere mac v) =
      { heap := wa.heap.set mac { m with state := v },
        gConnections := wa.gConnections, gConnNextHandle := wa.gConnNextHandle,
        trace := wa.trace ++ [Act.lock, Act.processEvents] } := by
  simp [MAProcessEvents, gConnMutex.lock, World.interfere, World.update, World.log, hm]

/-- One passage through the loop of `MAConn::close`: the world `w2` at the end
of the passage, and how the loop goes on from it. -/
theorem closeLoop_succ (K : ConnConsts) (others : Nat → List Op) (obs : Nat → Int)
    (mac fuel i : Nat) (w : World) (m : MAConn) (hm : w.heap[mac]? = some m) :
    ∃ w2, w2.heap[mac]? = some { m with state := obs i } ∧
      (∀ h p, w.find h = some p → w2.find h = some p) ∧
      w2.trace = w.trace ++ [Act.lock, Act.processEvents, Act.unlock] ∧
      MAConn.closeLoop K others obs mac (fuel + 1) i w =
        if obs i = 0 then some w2
        else MAConn.closeLoop K others obs mac fuel (i + 1) (ConnWaitEvent w2) := by
  obtain ⟨hk1, hk2⟩ := runOthers_keeps K (others i) w
  obtain ⟨v, hv⟩ := hk1 mac m hm
  have hv' : (w.amid K (others i)).heap[mac]? = some { m with state := v } := hv
  have hfa : ∀ h p, w.find h = some p → (w.amid K (others i)).find h = some p := hk2
  have hta : (w.amid K (others i)).trace = w.trace := rfl
  have hp := passage_eq (w.amid K (others i)) mac _ (obs i) hv'
  refine ⟨gConnMutex.unlock (MAProcessEvents
    ((gConnMutex.lock (w.amid K (others i))).interfere mac (obs i))), ?_, ?_, ?_, ?_⟩
  · rw [hp]
    exact getElem?_set_same _ _ _ _ hv'
  · intro h p hf
    rw [hp]
    exact hfa h p hf
  · rw [hp]
    simp [gConnMutex.unlock, World.log, hta]
  · have hheap : (MAProcessEvents
        ((gConnMutex.lock (w.amid K (others i))).interfere mac (obs i))).heap[mac]? =
        some { m with state := obs i } := by
      rw [hp]
      exact getElem?_set_same _ _ _ _ hv'
    simp only [MAConn.closeLoop, hheap]

/-- What the loop of `MAConn::close` has done when it returns. -/
theorem closeLoop_some (K : ConnConsts) (others : Nat → List Op) (obs : Nat → Int)
    (mac : Nat) :
    ∀ (fuel i : Nat) (w w' : World) (m : MAConn), w.heap[mac]? = some m →
      MAConn.closeLoop K others obs mac fuel i w = some w' →
      ∃ n, n < fuel ∧ (∀ j, j < n → obs (i + j) ≠ 0) ∧ obs (i + n) = 0 ∧
        w'.heap[mac]? = some { m with state := 0 } ∧
        (∀ h p, w.find h = some p → w'.find h = some p) ∧
        w'.trace = w.trace ++ (waitRounds n ++ [Act.lock, Act.processEvents, Act.unlock]) := by
  intro fuel
  induction fuel with
  | zero =>
    intro i w w' m _ hrun
    simp [MAConn.closeLoop] at hrun
  | succ fuel ih =>
    intro i w w' m hm hrun
    obtain ⟨w2, hheap2, hfind2, htr2, hstep⟩ := closeLoop_succ K others obs mac fuel i w m hm
    rw [hstep] at hrun
    by_cases hz : obs i = 0
    · rw [if_pos hz] at hrun
      cases hrun
      refine ⟨0, Nat.succ_pos _, ?_, by simpa using hz, ?_, hfind2, ?_⟩
      · intro j hj
        exact absurd hj (Nat.not_lt_zero j)
      · rw [hheap2, hz]
      · rw [htr2]
        simp [waitRounds]
    · rw [if_neg hz] at hrun
      have hm1 : (ConnWaitEvent w2).heap[mac]? = some { m with state := obs i } := hheap2
      obtain ⟨n, hn, hpos, hzero, hheap, hfind, htr⟩ := ih (i + 1) _ w' _ hm1 hrun
      refine ⟨n + 1, Nat.succ_lt_succ hn, ?_, ?_, hheap, ?_, ?_⟩
      · intro j hj
        cases j with
        | zero => simpa using hz
        | succ j =>
          have := hpos j (Nat.lt_of_succ_lt_succ hj)
          simpa [Nat.add_assoc, Nat.add_comm 1 j] using this
      · simpa [Nat.add_assoc, Nat.add_comm 1 n] using hzero
      · intro h p hf
        exact hfind h p (hfind2 h p hf)
      · rw [htr]
        simp [waitRounds, ConnWaitEvent, htr2]

/-- The loop of `MAConn::close` returns as soon as the pending mask is seen
empty, given fuel for that many passages. -/
theorem closeLoop_terminates (K : ConnConsts) (others : Nat → List Op) (obs : Nat → Int)
    (mac : Nat) :
    ∀ (n fuel i : Nat) (w : World) (m : MAConn), w.heap[mac]? = some m →
      obs (i + n) = 0 → n < fuel →
      ∃ w', MAConn.closeLoop K others obs mac fuel i w = some w' := by
  intro n
  induction n with
  | zero =>
    intro fuel i w m hm hz hf
    cases fuel with
    | zero => exact absurd hf (Nat.lt_irrefl 0)
    | succ fuel =>
      have hz' : obs i = 0 := by simpa using hz
      obtain ⟨w2, _, _, _, hstep⟩ := closeLoop_succ K others obs mac fuel i w m hm
      rw [hstep, if_pos hz']
      exact ⟨_, rfl⟩
  | succ n ih =>
    intro fuel i w m hm hz hf
    cases fuel with
    | zero => exact absurd hf (Nat.not_lt_zero _)
    | succ fuel =>
      obtain ⟨w2, hheap2, _, _, hstep⟩ := closeLoop_succ K others obs mac fuel i w m hm
      rw [hstep]
      by_cases hz' : obs i = 0
      · rw [if_pos hz']
        exact ⟨_, rfl⟩
      · rw [if_neg hz']
        have hm1 : (ConnWaitEvent w2).heap[mac]? = some { m with state := obs i } := hheap2
        refine ih fuel (i + 1) _ _ hm1 ?_ (Nat.lt_of_succ_lt_succ hf)
        simpa [Nat.add_assoc, Nat.add_comm 1 n] using hz

/-- What `MAConn::close` has done when it returns. -/
theorem close_some (K : ConnConsts) (others : Nat → List Op) (obs : Nat → Int)
    (mac fuel : Nat) (w w' : World)
    (hrun : MAConn.close K others obs mac fuel w = some w') :
    ∃ m c n, w.heap[mac]? = some m ∧ m.clo = some c ∧ n < fuel ∧
      (∀ j, j < n → obs j ≠ 0) ∧ obs n = 0 ∧
      w'.heap[mac]? = some { m with cancel := true, clo := none, state := 0 } ∧
      (∀ h p, w.find h = some p → w'.find h = some p) ∧
      w'.trace = w.trace ++
        ([Act.writeCancel mac true, Act.closableClose c, Act.writeClo mac] ++
          (waitRounds n ++ [Act.lock, Act.processEvents, Act.unlock])) := by
  cases hm : w.heap[mac]? with
  | none => simp [MAConn.close, hm] at hrun
  | some m =>
    cases hc : m.clo with
    | none => simp [MAConn.close, hm, hc] at hrun
    | some c =>
      simp only [MAConn.close, hm, hc] at hrun
      have hm3 : (((w.setCancel mac true).log (Act.closableClose c)).clearClo mac).heap[mac]? =
          some { m with cancel := true, clo := none } := by
        simp only [World.clearClo, World.setCancel, World.update, World.log, hm,
          getElem?_set_same _ _ _ _ hm]
        exact getElem?_set_same _ _ _ _ (getElem?_set_same _ _ _ _ hm)
      obtain ⟨n, hn, hpos, hzero, hheap, hfind, htr⟩ :=
        closeLoop_some K others obs mac fuel 0 _ w' _ hm3 hrun
      refine ⟨m, c, n, rfl, hc, hn, ?_, by simpa using hzero, hheap, ?_, ?_⟩
      · intro j hj
        simpa using hpos j hj
      · intro h p hf
        apply hfind
        simpa [World.find, World.clearClo, World.setCancel, World.update, World.log, hm,
          getElem?_set_same _ _ _ _ hm] using hf
      · rw [htr]
        simp [World.clearClo, World.setCancel, World.update, World.log, hm,
          getElem?_set_same _ _ _ _ hm]

/-- `MAConn::close` returns when the record has a resource and the pending
mask is seen empty within the fuel. -/
theorem close_terminates (K : ConnConsts) (others : Nat → List Op) (obs : Nat → Int)
    (mac fuel n : Nat) (w : World) (m : MAConn)
    (c : Nat) (hm : w.heap[mac]? = some m) (hc : m.clo = some c) (hz : obs n = 0)
    (hf : n < fuel) : ∃ w', MAConn.close K others obs mac fuel w = some w' := by
  simp only [MAConn.close, hm, hc]
  refine closeLoop_terminates K others obs mac n fuel 0 _
    { m with cancel := true, clo := none } ?_ (by simpa using hz) hf
  simp only [World.clearClo, World.setCancel, World.update, World.log, hm,
    getElem?_set_same _ _ _ _ hm]
  exact getElem?_set_same _ _ _ _ (getElem?_set_same _ _ _ _ hm)

/-- C6. Close postcondition: for every record, whatever operations the other
threads execute meanwhile, whenever `MAConn::close` returns, the record's
cancel flag is true, the resource's `close` has been called exactly once, `clo`
is empty, and the pending mask is 0, as seen in the last passage of the loop
under the lock after `MAProcessEvents`.  The passages before the last one (`n`
of them) are exactly those that saw a pending mask different from 0, and each
of them consists of lock, `MAProcessEvents`, unlock, `ConnWaitEvent`.  Moreover
`close` does return when the record has a resource and the pending mask is seen
empty within the fuel. -/
theorem close_postcondition (K : ConnConsts) (others : Nat → List Op) (obs : Nat → Int)
    (mac fuel : Nat) (w : World) :
    (∀ w', MAConn.close K others obs mac fuel w = some w' →
      ∃ m c n acts, w.heap[mac]? = some m ∧ m.clo = some c ∧
        w'.heap[mac]? = some { m with cancel := true, clo := none, state := 0 } ∧
        w'.trace = w.trace ++ acts ∧
        acts = [Act.writeCancel mac true, Act.closableClose c, Act.writeClo mac] ++
          (waitRounds n ++ [Act.lock, Act.processEvents, Act.unlock]) ∧
        acts.count (Act.closableClose c) = 1 ∧
        (∀ c', Act.closableClose c' ∈ acts → c' = c) ∧
        (∀ j, j < n → obs j ≠ 0) ∧ obs n = 0 ∧ n < fuel) ∧
    (∀ m c n, w.heap[mac]? = some m → m.clo = some c → obs n = 0 → n < fuel →
      ∃ w', MAConn.close K others obs mac fuel w = some w') := by
  constructor
  · intro w' hrun
    obtain ⟨m, c, n, hm, hc, hn, hpos, hzero, hheap, _, htr⟩ :=
      close_some K others obs mac fuel w w' hrun
    refine ⟨m, c, n, _, hm, hc, hheap, htr, rfl, ?_, ?_, hpos, hzero, hn⟩
    · have h0 : (waitRounds n).count (Act.closableClose c) = 0 :=
        List.count_eq_zero.mpr (closableClose_not_mem_waitRounds c n)
      simp [List.count_cons, List.count_append, h0]
    · intro c' hmem
      have hnot := closableClose_not_mem_waitRounds c' n
      simp only [List.mem_append, List.mem_cons, List.mem_singleton, Act.closableClose.injEq,
        List.not_mem_nil, or_false, false_or, reduceCtorEq] at hmem
      rcases hmem with hmem | hmem
      · exact hmem
      · exact absurd hmem hnot
  · intro m c n hm hc hz hf
    exact close_terminates K others obs mac fuel n w m c hm hc hz hf

/-- C6, scenario 3: closing the record with handle 4 while its read is
pending for two more passages. -/
theorem close_postcondition_witness :
    ∃ w' m, MAConn.close maapi noOthers scenario3Obs 0 5 scenario3 = some w' ∧
      w'.heap[0]? = some m ∧ m.cancel = true ∧ m.clo = none ∧ m.state = 0 ∧
      w'.trace =
        [Act.writeCancel 0 true, Act.closableClose 100, Act.writeClo 0,
         Act.lock, Act.processEvents, Act.unlock, Act.waitEvent,
         Act.lock, Act.processEvents, Act.unlock, Act.waitEvent,
         Act.lock, Act.processEvents, Act.unlock] := by
  have hrun : MAConn.close maapi noOthers scenario3Obs 0 5 scenario3 = some
      { heap := [{ MAStreamConn.mk 4 100 with cancel := true, clo := none, state := 0 }],
        gConnections := [(4, 0)], gConnNextHandle := 5,
        trace :=
          [Act.writeCancel 0 true, Act.closableClose 100, Act.writeClo 0,
           Act.lock, Act.processEvents, Act.unlock, Act.waitEvent,
           Act.lock, Act.processEvents, Act.unlock, Act.waitEvent,
           Act.lock, Act.processEvents, Act.unlock] } := by
    rfl
  obtain ⟨m, c, n, acts, hm, _, hheap, _⟩ :=
    (close_postcondition maapi noOthers scenario3Obs 0 5 scenario3).1 _ hrun
  exact ⟨_, _, hrun, hheap, rfl, rfl, rfl, rfl⟩

/-- C7 as stated fails: `MAConn::close` does not remove the record from the
registry.  After close on the record with handle 4 has returned, the registry
still has the entry for 4. -/
theorem close_keeps_entry_counterexample :
    ∃ w', MAConn.close maapi noOthers scenario3Obs 0 5 scenario3 = some w' ∧
      scenario3.find 4 = some 0 ∧ w'.find 4 = some 0 ∧ w'.find 4 ≠ none :=
  ⟨_, rfl, rfl, rfl, by decide⟩

/-- C7, amended.  `MAConn::close` does not remove the record: for every
registry state and every handle `h` naming a live record, whatever operations
the other threads execute meanwhile, after close on a record returns the
registry still contains the entry for `h`, naming the same record; none of the
actions of `MAConn::close` itself is a write to the registry. -/
theorem close_does_not_remove_entry (K : ConnConsts) (others : Nat → List Op)
    (obs : Nat → Int) (mac fuel : Nat) (w w' : World)
    (hrun : MAConn.close K others obs mac fuel w = some w') :
    (∀ h p, w.find h = some p → w'.find h = some p) ∧
    (∃ acts, w'.trace = w.trace ++ acts ∧ ∀ a ∈ acts, isRegistryWrite a = false) := by
  obtain ⟨m, c, n, _, _, _, _, _, _, hfind, htr⟩ := close_some K others obs mac fuel w w' hrun
  refine ⟨hfind, _, htr, ?_⟩
  intro a ha
  have hw : ∀ k : Nat, ∀ b ∈ waitRounds k, isRegistryWrite b = false := by
    intro k
    induction k with
    | zero => simp [waitRounds]
    | succ k ih =>
      intro b hb
      simp only [waitRounds, List.mem_append, List.mem_cons, List.not_mem_nil,
        or_false] at hb
      rcases hb with (hb | hb | hb | hb) | hb
      · subst hb; rfl
      · subst hb; rfl
      · subst hb; rfl
      · subst hb; rfl
      · exact ih b hb
  simp only [List.mem_append, List.mem_cons, List.not_mem_nil, or_false] at ha
  rcases ha with (ha | ha | ha) | ha | ha | ha | ha
  · subst ha; rfl
  · subst ha; rfl
  · subst ha; rfl
  · exact hw n a ha
  · subst ha; rfl
  · subst ha; rfl
  · subst ha; rfl

/-- C7, scenario 2 while closing the listener: its accept succeeds on a worker
thread during the close and registers the new record 3; after close on the
listener has returned, the entries for 1 and 2 are still in the registry. -/
theorem close_does_not_remove_entry_witness :
    ∃ w', MAConn.close maapi scenario2Others scenario2Obs 1 5 scenario2 = some w' ∧
      w'.gConnections = [(1, 0), (2, 1), (3, 2)] ∧
      scenario2.find 2 = some 1 ∧ w'.find 2 = some 1 ∧
      scenario2.find 1 = some 0 ∧ w'.find 1 = some 0 := by
  have hrun : MAConn.close maapi scenario2Others scenario2Obs 1 5 scenario2 = some
      { heap := [MAStreamConn.mk 1 100,
          { MAServerConn.mk 2 200 with cancel := true, clo := none, state := 0 },
          MAStreamConn.mk 3 300],
        gConnections := [(1, 0), (2, 1), (3, 2)], gConnNextHandle := 4,
        trace :=
          [Act.writeCancel 1 true, Act.closableClose 200, Act.writeClo 1,
           Act.lock, Act.processEvents, Act.unlock] } := by
    rfl
  have hthm := (close_does_not_remove_entry maapi scenario2Others scenario2Obs 1 5 scenario2
    _ hrun).1
  exact ⟨_, hrun, rfl, rfl, hthm 2 1 rfl, rfl, hthm 1 0 rfl⟩

/-! ## Lock coverage -/

theorem issuedHandles_append (a b : List Act) :
    issuedHandles (a ++ b) = issuedHandles a ++ issuedHandles b := by
  induction a with
  | nil => rfl
  | cons x t ih => cases x <;> simp [issuedHandles, ih]

/-- The handle found at an address survives a write to the pending mask of the
record at `mac` and an allocation at the end of the heap. -/
theorem handle_preserved (l : List MAConn) (ext : List MAConn) (mac : Nat) (m : MAConn)
    (v : Int) (hm : l[mac]? = some m) (p : Nat) (k : Int)
    (hp : (l[p]?).map MAConn.handle = some k) :
    (((l ++ ext).set mac { m with state := v })[p]?).map MAConn.handle = some k := by
  have hlt : mac < l.length := by
    by_contra hc
    rw [List.getElem?_eq_none (Nat.le_of_not_lt hc)] at hm
    cases hm
  by_cases hpm : p = mac
  · subst hpm
    rw [hm] at hp
    have hlt' : p < (l ++ ext).length := by
      rw [List.length_append]
      exact Nat.lt_of_lt_of_le hlt (Nat.le_add_right _ _)
    rw [List.getElem?_set_self hlt']
    simpa using hp
  · rw [List.getElem?_set_ne (Ne.symm hpm)]
    have hpl : p < l.length := by
      by_contra hc
      rw [List.getElem?_eq_none (Nat.le_of_not_lt hc)] at hp
      cases hp
    rw [List.getElem?_append_left hpl]
    exact hp

/-- The facts about a sequence of accepts that are proved together by
induction on the sequence. -/
theorem acceptSeq_core (K : ConnConsts) :
    ∀ (cs : List AcceptCall) (w : World),
      (∀ c ∈ cs, c.mac < w.heap.length) →
      (∀ k ∈ w.keys, k < w.gConnNextHandle) →
      ∃ w' acts, acceptSeq K cs w = some w' ∧ w'.trace = w.trace ++ acts ∧
        w.heap.length ≤ w'.heap.length ∧
        w.gConnNextHandle ≤ w'.gConnNextHandle ∧
        w'.keys = w.keys ++ issuedHandles acts ∧
        (∀ h ∈ issuedHandles acts, w.gConnNextHandle ≤ h ∧ h < w'.gConnNextHandle) ∧
        (issuedHandles acts).Pairwise (fun a b => a < b) ∧
        (∀ h p b, Act.registryInsert h p b ∈ acts → b = true) ∧
        (issuedHandles acts).length = (cs.filter (fun c => decide (0 ≤ c.res))).length ∧
        (w.keyedByHandle → w'.keyedByHandle) ∧
        (0 ≤ w.gConnNextHandle → acceptReports false acts = issuedHandles acts) := by
  intro cs
  induction cs with
  | nil =>
    intro w _ _
    refine ⟨w, [], rfl, by simp, le_refl _, le_refl _, by simp [issuedHandles], ?_, ?_, ?_,
      rfl, fun hw => hw, fun _ => rfl⟩
    · intro h hh
      simp [issuedHandles] at hh
    · simp [issuedHandles]
    · intro h p b hmem
      simp at hmem
  | cons c cs ih =>
    intro w hl hk
    have hmac : c.mac < w.heap.length := hl c (by simp)
    obtain ⟨m, hm⟩ : ∃ m, w.heap[c.mac]? = some m :=
      ⟨w.heap[c.mac], List.getElem?_eq_getElem hmac⟩
    by_cases hres : c.res < 0
    · have hnot : ¬ (0 ≤ c.res) := not_le.mpr hres
      obtain ⟨w1, acts1, hrun, hheap1, hreg1, hcnt1, htr1, hacts1⟩ :
          ∃ w1 acts1, Accept.run K c.mac c.res c.conn w = some w1 ∧
            w1.heap = w.heap.set c.mac
              { m with state := cAnd m.state (cNot K.CONNOP_ACCEPT) } ∧
            w1.gConnections = w.gConnections ∧
            w1.gConnNextHandle = w.gConnNextHandle ∧
            w1.trace = w.trace ++ acts1 ∧ acts1 =
              [Act.transport m.res Call.accept c.res, Act.lock,
               Act.debugAssert (decide (cAnd m.state K.CONNOP_ACCEPT ≠ 0)),
               Act.writeState c.mac (cAnd m.state (cNot K.CONNOP_ACCEPT)),
               Act.pushEvent
                 { type := K.EVENT_TYPE_CONN, handle := m.handle, opType := K.CONNOP_ACCEPT,
                   result := if m.cancel = true then K.CONNERR_CANCELED else c.res },
               Act.unlock] :=
        ⟨_, _, Accept_run_failure_eq K c.mac c.res c.conn w m hm hres, rfl, rfl, rfl, rfl, rfl⟩
      have hkeys1 : w1.keys = w.keys := by simp only [World.keys, hreg1]
      have hlen1 : w1.heap.length = w.heap.length := by rw [hheap1, List.length_set]
      obtain ⟨w', acts, h1, h2, h3, h4, h5, h6, h7, h8, h9, h10, h11⟩ := ih w1
        (by
          intro c' hc'
          have := hl c' (by simp [hc'])
          omega)
        (by
          intro k hkk
          rw [hkeys1] at hkk
          rw [hcnt1]
          exact hk k hkk)
      rw [hkeys1] at h5
      rw [hcnt1] at h4 h6 h11
      rw [hlen1] at h3
      refine ⟨w', acts1 ++ acts, ?_, ?_, h3, h4, ?_, ?_, ?_, ?_, ?_, ?_, ?_⟩ <;> subst hacts1
      · simp only [acceptSeq, hrun]
        exact h1
      · rw [h2, htr1]
        simp only [List.append_assoc]
      · rw [h5]
        simp [issuedHandles_append, issuedHandles]
      · intro h hh
        simp only [issuedHandles_append, issuedHandles, List.nil_append] at hh
        exact h6 h hh
      · simpa [issuedHandles_append, issuedHandles] using h7
      · intro h p b hmem
        simp only [List.mem_append, List.mem_cons, List.not_mem_nil, or_false,
          reduceCtorEq, false_or] at hmem
        exact h8 h p b hmem
      · rw [issuedHandles_append, List.length_append, h9, List.filter_cons]
        simp [issuedHandles, hnot]
      · intro hw
        apply h10
        intro e he
        rw [hreg1] at he
        rw [hheap1]
        simpa using handle_preserved w.heap [] c.mac m _ hm e.2 e.1 (hw e he)
      · intro hpos
        have := h11 hpos
        simp only [issuedHandles_append, issuedHandles, List.nil_append]
        simpa [acceptReports] using this
    · have hres' : 0 ≤ c.res := not_lt.mp hres
      have hfind : w.find w.gConnNextHandle = none :=
        lookup_none_of_keys_lt _ _ hk
      obtain ⟨w1, acts1, hrun, hheap1, hreg1, hcnt1, htr1, hacts1⟩ :
          ∃ w1 acts1, Accept.run K c.mac c.res c.conn w = some w1 ∧
            w1.heap = (w.heap ++ [MAStreamConn.mk w.gConnNextHandle c.conn]).set c.mac
              { m with state := cAnd m.state (cNot K.CONNOP_ACCEPT) } ∧
            w1.gConnections = w.gConnections ++ [(w.gConnNextHandle, w.heap.length)] ∧
            w1.gConnNextHandle = w.gConnNextHandle + 1 ∧
            w1.trace = w.trace ++ acts1 ∧ acts1 =
              [Act.transport m.res Call.accept c.res,
               Act.registryInsert w.gConnNextHandle w.heap.length true,
               Act.lock,
               Act.debugAssert (decide (cAnd m.state K.CONNOP_ACCEPT ≠ 0)),
               Act.writeState c.mac (cAnd m.state (cNot K.CONNOP_ACCEPT)),
               Act.pushEvent
                 { type := K.EVENT_TYPE_CONN, handle := m.handle, opType := K.CONNOP_ACCEPT,
                   result := if w.gConnNextHandle < 0 ∧ m.cancel = true
                     then K.CONNERR_CANCELED else w.gConnNextHandle },
               Act.unlock] := by
        refine ⟨_, _, Accept_run_success_eq K c.mac c.res c.conn w m hm hres', rfl, ?_, rfl,
          rfl, ?_⟩
        · simp [hfind]
        · simp [hfind]
      have hkeys1 : w1.keys = w.keys ++ [w.gConnNextHandle] := by
        simp only [World.keys, hreg1, List.map_append, List.map_cons, List.map_nil]
      have hlen1 : w1.heap.length = w.heap.length + 1 := by
        rw [hheap1, List.length_set, List.length_append, List.length_singleton]
      obtain ⟨w', acts, h1, h2, h3, h4, h5, h6, h7, h8, h9, h10, h11⟩ := ih w1
        (by
          intro c' hc'
          have := hl c' (by simp [hc'])
          omega)
        (by
          intro k hkk
          rw [hkeys1] at hkk
          rw [hcnt1]
          simp only [List.mem_append, List.mem_singleton] at hkk
          rcases hkk with hkk | hkk
          · have := hk k hkk
            omega
          · omega)
      rw [hkeys1] at h5
      rw [hcnt1] at h4 h6 h11
      rw [hlen1] at h3
      refine ⟨w', acts1 ++ acts, ?_, ?_, by omega, by omega, ?_, ?_, ?_, ?_, ?_, ?_, ?_⟩ <;>
        subst hacts1
      · simp only [acceptSeq, hrun]
        exact h1
      · rw [h2, htr1]
        simp only [List.append_assoc]
      · rw [h5]
        simp [issuedHandles_append, issuedHandles]
      · intro h hh
        simp only [issuedHandles_append, issuedHandles, List.cons_append, List.nil_append,
          List.mem_cons] at hh
        rcases hh with hh | hh
        · subst hh
          constructor <;> omega
        · have := h6 h hh
          exact ⟨by omega, this.2⟩
      · simp only [issuedHandles_append, issuedHandles, List.cons_append, List.nil_append,
          List.pairwise_cons]
        refine ⟨?_, h7⟩
        intro h hh
        have := (h6 h hh).1
        omega
      · intro h p b hmem
        simp only [List.mem_append, List.mem_cons, List.not_mem_nil, or_false,
          reduceCtorEq, false_or, Act.registryInsert.injEq] at hmem
        rcases hmem with hmem | hmem
        · exact hmem.2.2
        · exact h8 h p b hmem
      · rw [issuedHandles_append, List.length_append, h9, List.filter_cons]
        simp [issuedHandles, hres', Nat.add_comm]
      · intro hw
        apply h10
        intro e he
        rw [hreg1] at he
        rw [hheap1]
        simp only [List.mem_append, List.mem_singleton] at he
        rcases he with he | he
        · exact handle_preserved w.heap _ c.mac m _ hm e.2 e.1 (hw e he)
        · subst he
          show ((((w.heap ++ [MAStreamConn.mk w.gConnNextHandle c.conn]).set c.mac _)[
            w.heap.length]?).map MAConn.handle) = some w.gConnNextHandle
          rw [getElem?_alloc_new w.heap c.mac m _ _ hm]
          rfl
      · intro hpos
        have hover : ¬ (w.gConnNextHandle < 0 ∧ m.cancel = true) := fun hc =>
          absurd hc.1 (not_lt.mpr hpos)
        have := h11 (by omega)
        simp only [issuedHandles_append, issuedHandles, List.cons_append, List.nil_append]
        simp [acceptReports, hover, this]

/-- C5. Handle uniqueness and monotonicity: starting from any state in which
every registry key is strictly below the next-handle counter, any sequence of
executions of `Accept::run` (successful or failed, each bound to a record of
the heap) returns, and afterwards every registry key is still strictly below
the counter; the keys of the registry stay pairwise distinct, and when every
entry named a record carrying its key as handle this stays so, hence no two
records of the registry carry the same handle; every insertion made by a
successful accept is of a key not already present (`insert` reports a new
entry); the registry has grown by exactly the handles issued, one for each
successful accept; every handle issued is strictly greater than every handle
issued earlier in the sequence and than every key present at the start; and
with a non-negative counter the events of the successful accepts report exactly
these handles.  Integers are unbounded: overflow of the counter is ignored. -/
theorem accepts_keep_handles_unique_and_increasing (K : ConnConsts)
    (cs : List AcceptCall) (w : World)
    (hl : ∀ c ∈ cs, c.mac < w.heap.length)
    (hk : ∀ k ∈ w.keys, k < w.gConnNextHandle) :
    ∃ w' acts, acceptSeq K cs w = some w' ∧ w'.trace = w.trace ++ acts ∧
      (∀ k ∈ w'.keys, k < w'.gConnNextHandle) ∧
      (w.keys.Nodup → w'.keys.Nodup) ∧
      (w.keys.Nodup → w.keyedByHandle → w'.keyedByHandle ∧ w'.registeredHandles.Nodup) ∧
      (∀ h p b, Act.registryInsert h p b ∈ acts → b = true) ∧
      w'.keys = w.keys ++ issuedHandles acts ∧
      (issuedHandles acts).length = (cs.filter (fun c => decide (0 ≤ c.res))).length ∧
      (issuedHandles acts).Pairwise (fun a b => a < b) ∧
      (∀ h ∈ issuedHandles acts, ∀ k ∈ w.keys, k < h) ∧
      (0 ≤ w.gConnNextHandle → acceptReports false acts = issuedHandles acts) := by
  obtain ⟨w', acts, h1, h2, _, h4, h5, h6, h7, h8, h9, h10, h11⟩ := acceptSeq_core K cs w hl hk
  have hnd : w.keys.Nodup → w'.keys.Nodup := by
    intro hw
    rw [h5]
    refine List.Nodup.append hw ?_ ?_
    · exact h7.imp (fun hab => ne_of_lt hab)
    · intro k hk1 hk2
      have := hk k hk1
      have := (h6 k hk2).1
      omega
  refine ⟨w', acts, h1, h2, ?_, hnd, ?_, h8, h5, h9, h7, ?_, h11⟩
  · intro k hkk
    rw [h5] at hkk
    simp only [List.mem_append] at hkk
    rcases hkk with hkk | hkk
    · have := hk k hkk
      omega
    · exact (h6 k hkk).2
  · intro hw hkeyed
    have hk' := h10 hkeyed
    refine ⟨hk', ?_⟩
    have heq : w'.registeredHandles = w'.keys.map some := by
      simp only [World.registeredHandles, World.keys, List.map_map]
      apply List.map_congr_left
      intro e he
      exact hk' e he
    rw [heq]
    exact (hnd hw).map (fun a b hab => Option.some.inj hab)
  · intro h hh k hkk
    have := hk k hkk
    have := (h6 h hh).1
    omega

/-- C5, scenario 2: a successful, a failed and a successful accept on the
listener with handle 2, starting with the keys 1 and 2 and the counter at 3,
issue the handles 3 and 4. -/
theorem accepts_keep_handles_unique_and_increasing_witness :
    ((∀ c ∈ scenario2Calls, c.mac < scenario2.heap.length) ∧
      (∀ k ∈ scenario2.keys, k < scenario2.gConnNextHandle)) ∧
    ∃ w' acts, acceptSeq maapi scenario2Calls scenario2 = some w' ∧
      w'.trace = scenario2.trace ++ acts ∧
      w'.keys = [1, 2, 3, 4] ∧ w'.gConnNextHandle = 5 ∧
      issuedHandles acts = [3, 4] ∧ acceptReports false acts = [3, 4] ∧
      (∀ k ∈ w'.keys, k < w'.gConnNextHandle) ∧ w'.keys.Nodup := by
  have hl : ∀ c ∈ scenario2Calls, c.mac < scenario2.heap.length := by decide
  have hk : ∀ k ∈ scenario2.keys, k < scenario2.gConnNextHandle := by decide
  refine ⟨⟨hl, hk⟩, ?_⟩
  obtain ⟨w', acts, h1, h2, h3, h4, _, _, h5, _, _, _, h6⟩ :=
    accepts_keep_handles_unique_and_increasing maapi scenario2Calls scenario2 hl hk
  have hrun : acceptSeq maapi scenario2Calls scenario2 = some
      { heap := [MAStreamConn.mk 1 100, { MAServerConn.mk 2 200 with state := 0 },
          MAStreamConn.mk 3 300, MAStreamConn.mk 4 301],
        gConnections := [(1, 0), (2, 1), (3, 2), (4, 3)], gConnNextHandle := 5,
        trace :=
          [Act.transport 200 Call.accept 0, Act.registryInsert 3 2 true, Act.lock,
           Act.debugAssert true, Act.writeState 1 0,
           Act.pushEvent { type := 4, handle := 2, opType := 16, result := 3 }, Act.unlock,
           Act.transport 200 Call.accept (-5), Act.lock,
           Act.debugAssert false, Act.writeState 1 0,
           Act.pushEvent { type := 4, handle := 2, opType := 16, result := -5 }, Act.unlock,
           Act.transport 200 Call.accept 0, Act.registryInsert 4 3 true, Act.lock,
           Act.debugAssert false, Act.writeState 1 0,
           Act.pushEvent { type := 4, handle := 2, opType := 16, result := 4 },
           Act.unlock] } := by
    rfl
  rw [hrun] at h1
  cases h1
  have hacts : acts =
          [Act.transport 200 Call.accept 0, Act.registryInsert 3 2 true, Act.lock,
           Act.debugAssert true, Act.writeState 1 0,
           Act.pushEvent { type := 4, handle := 2, opType := 16, result := 3 }, Act.unlock,
           Act.transport 200 Call.accept (-5), Act.lock,
           Act.debugAssert false, Act.writeState 1 0,
           Act.pushEvent { type := 4, handle := 2, opType := 16, result := -5 }, Act.unlock,
           Act.transport 200 Call.accept 0, Act.registryInsert 4 3 true, Act.lock,
           Act.debugAssert false, Act.writeState 1 0,
           Act.pushEvent { type := 4, handle := 2, opType := 16, result := 4 },
           Act.unlock] := by
    simpa [scenario2] using h2.symm
  subst hacts
  exact ⟨_, _, hrun, rfl, rfl, rfl, rfl, rfl, h3, h4 (by decide)⟩

end Networking
